import Mathlib

/-!
# DHT22 reader (`resources/dht22.c`): pulse decoder, frame validator, retry loop

Shallow embedding of `readData` and `main` of `resources/dht22.c`.

* `unsigned short` variables are natural numbers, every assignment reduced
  modulo `2 ^ 16` (`u16`).
* `readData` is a machine that advances by one `digitalRead` call at a time
  (`sample`): the state is the C locals, the global `data`, and three
  ghost fields (`samples`, `stores`, `pulses`) that only record what happened.
* The pin is a function from the index of the `digitalRead` call to the level
  read (`true` is `HIGH`).
* `float` values are the exact rationals denoted by the C expressions; the
  rounding to `float` and the `%0.2f` formatting are not modelled.
-/

namespace DHT22

/-! ## Constants (dht22.c, lines 16-22) -/

def NO_DATA : String := "NO_DATA"
def GPIO_INIT_FAILED : String := "GPIO_INIT_FAILED"
def NO_ERROR : String := ""
def INVALID_GPIO : String := "INVALID_GPIO"

def MAX_RETRIES : Nat := 3
def WATCHDOG_THRESHOLD : Nat := 50000

/-- Value kept by an `unsigned short` after an assignment. -/
def u16 (n : Nat) : Nat := n % 65536

/-! ## State of `readData` -/

/-- Why `readData` returned (ghost: the C function returns `-1` in all three). -/
inductive Exit where
  | stuckHigh       -- line 42: `signal_length >= 200`
  | unclassifiable  -- line 78: pulse of 85 ticks or more
  | watchdog        -- line 104: the `for` loop ran out
  deriving DecidableEq, Repr

/-- Locals of `readData` (lines 26-31), the global `data` (line 14), and ghost
fields: `samples` counts the `digitalRead` calls made so far, `stores` lists
the assignments `data[idx] = val` executed so far (oldest first), `pulses`
lists the durations of the completed HIGH pulses (oldest first). -/
structure RState where
  val : Nat
  signal_length : Nat
  val_counter : Nat
  loop_counter : Nat
  watchdog : Nat
  data : List Nat
  samples : Nat
  stores : List (Int × Nat)
  pulses : List Nat
  deriving DecidableEq, Repr

/-- State on entry of `readData` (lines 26-31), `data` being the global. -/
def RState.init (data : List Nat) : RState :=
  { val := 0, signal_length := 0, val_counter := 0, loop_counter := 0,
    watchdog := 0, data := data, samples := 0, stores := [], pulses := [] }

/-- The global `data` as initialised on line 14. -/
def zeroFrame : List Nat := [0, 0, 0, 0, 0]

/-- Lines 49-83: the block `if (signal_length > 0)`. `none` is the
`return -1` of line 78. -/
def pulseBlock (s : RState) : Option RState :=
  if 0 < s.signal_length then
    let lc := u16 (s.loop_counter + 1)
    if s.signal_length < 10 then
      some { s with loop_counter := lc, val := u16 (s.val <<< 1),
                    signal_length := 0, val_counter := u16 (s.val_counter + 1),
                    pulses := s.pulses ++ [s.signal_length] }
    else if s.signal_length < 30 then
      some { s with loop_counter := lc, val := u16 (s.val <<< 1),
                    signal_length := 0, val_counter := u16 (s.val_counter + 1),
                    pulses := s.pulses ++ [s.signal_length] }
    else if s.signal_length < 85 then
      some { s with loop_counter := lc, val := u16 (u16 (s.val <<< 1) ||| 1),
                    signal_length := 0, val_counter := u16 (s.val_counter + 1),
                    pulses := s.pulses ++ [s.signal_length] }
    else none
  else some s

/-- Lines 87-91: `if (loop_counter < 3) { val = 0; val_counter = 0; }`. -/
def handshakeReset (s : RState) : RState :=
  if s.loop_counter < 3 then { s with val := 0, val_counter := 0 } else s

/-- The assignment `data[idx] = v` on the five-cell array. An index outside
`0..4` does not land in the frame: the frame is left as it is (the store is
still recorded in `stores`). -/
def writeData (data : List Nat) (idx : Int) (v : Nat) : List Nat :=
  if 0 ≤ idx ∧ idx < 5 then data.set idx.toNat v else data

/-- Lines 94-101: `if (val_counter >= 8) { data[(loop_counter / 8) - 1] = val; ... }`.
The index is computed in `int`. -/
def storeByte (s : RState) : RState :=
  if 8 ≤ s.val_counter then
    let idx : Int := ((s.loop_counter / 8 : Nat) : Int) - 1
    { s with data := writeData s.data idx (u16 s.val),
             stores := s.stores ++ [(idx, u16 s.val)],
             val := 0, val_counter := 0 }
  else s

/-- State after lines 51-82 on a pulse that is classified, written without
the reductions modulo `2 ^ 16` (they change nothing under `Inv`, see
`pulseBlock_classified`). -/
def RState.classified (s : RState) : RState :=
  { s with loop_counter := s.loop_counter + 1,
           val := 2 * s.val + (if s.signal_length < 30 then 0 else 1),
           signal_length := 0, val_counter := s.val_counter + 1,
           pulses := s.pulses ++ [s.signal_length] }

/-- Result of advancing `readData` by one `digitalRead` call. -/
inductive Step where
  | cont (s : RState)             -- about to call `digitalRead` again
  | ret (s : RState) (e : Exit)   -- `return -1`
  deriving DecidableEq, Repr

/-- Ghost: one more `digitalRead` call made. -/
def RState.tick (s : RState) : RState := { s with samples := s.samples + 1 }

/-- One `digitalRead` call (line 34) returning `level`, and the code run up to
the next call or the return.
* HIGH: lines 36-45.
* LOW: the `while` ends; lines 49-101, then `watchdog++` and the loop test
  `watchdog <= WATCHDOG_THRESHOLD` of line 31; line 104 when it fails. -/
def sample (s : RState) (level : Bool) : Step :=
  let s := s.tick
  if level then
    let s1 := { s with signal_length := u16 (s.signal_length + 1) }
    if 200 ≤ s1.signal_length then .ret s1 .stuckHigh else .cont s1
  else
    match pulseBlock s with
    | none => .ret { s with loop_counter := u16 (s.loop_counter + 1) } .unclassifiable
    | some s1 =>
      let s2 := storeByte (handshakeReset s1)
      let s3 := { s2 with watchdog := s2.watchdog + 1 }
      if s3.watchdog ≤ WATCHDOG_THRESHOLD then .cont s3 else .ret s3 .watchdog

/-- `readData` advanced by at most `n` `digitalRead` calls from state `s`;
sample number `t` (from 0) reads `pin t`. -/
def run (pin : Nat → Bool) : Nat → RState → Step
  | 0, s => .cont s
  | n + 1, s =>
    match sample s (pin s.samples) with
    | .cont s1 => run pin n s1
    | .ret s1 e => .ret s1 e

/-- Number of samples after which `readData` has returned, whatever the pin:
`WATCHDOG_THRESHOLD + 1` iterations of the `for` loop, 200 samples each. -/
def FUEL : Nat := 200 * (WATCHDOG_THRESHOLD + 1)

/-- State a `Step` carries. -/
def Step.state : Step → RState
  | .cont s => s
  | .ret s _ => s

/-- Exit reason of a `Step`, `none` while running. -/
def Step.exit : Step → Option Exit
  | .cont _ => none
  | .ret _ e => some e

/-- `readData(signal)` (lines 24-105) called with the global `data` holding
`data`, the pin reading `pin t` at the `t`-th sample. -/
def readData (pin : Nat → Bool) (data : List Nat) : Step :=
  run pin FUEL (RState.init data)

/-- Value of the `return` statement taken (lines 42, 78, 104). -/
def Exit.code : Exit → Int
  | .stuckHigh => -1
  | .unclassifiable => -1
  | .watchdog => -1

/-- Value returned by `readData`, `none` while it runs. -/
def Step.result : Step → Option Int
  | .cont _ => none
  | .ret _ e => some e.code

/-! ## `main` (lines 116-200) -/

/-- Line 155: `(data[0] + data[1] + data[2] + data[3]) & 0xFF`. -/
def checksum (data : List Nat) : Nat :=
  (data.getD 0 0 + data.getD 1 0 + data.getD 2 0 + data.getD 3 0) &&& 0xFF

/-- Line 158: `data[4] == checksum && checksum != 0x00`. -/
def accepted (data : List Nat) : Bool :=
  data.getD 4 0 == checksum data && checksum data != 0x00

/-- Line 161: `((data[0] * 256) + data[1]) / 10.0`. -/
def humidity (data : List Nat) : ℚ :=
  ((data.getD 0 0 * 256 + data.getD 1 0 : Nat) : ℚ) / 10

/-- Lines 162-168: `data[3] / 10.0`, times `-1` when `data[2] == 0x80`. -/
def celsius (data : List Nat) : ℚ :=
  let c : ℚ := (data.getD 3 0 : ℚ) / 10
  if data.getD 2 0 = 0x80 then c * -1 else c

/-- Lines 187-190: `for (i = 0; i < 5; i++) data[i] = 0;`. -/
def resetData (data : List Nat) : List Nat :=
  (List.range 5).foldl (fun d i => d.set i 0) data

/-- What `main` does to the outside, in order. -/
inductive Event where
  | usage                                    -- `usage()`
  | pinMode (pin : Nat) (output : Bool)      -- `pinMode(pin, OUTPUT | INPUT)`
  | digitalWrite (pin : Nat) (high : Bool)   -- `digitalWrite(pin, HIGH | LOW)`
  | delay (ms : Nat)                         -- `delay(ms)`
  | readData (pin : Nat)                     -- `readData(pin)`
  | toJson (celsius humidity : ℚ) (error : String)
  deriving DecidableEq

/-- What `main` gets from outside.
* `sscanf_d s`: the value the `sscanf` of line 132 leaves in `signal` when
  `argv[1]` is `s`, `none` when it converts nothing and leaves `signal` as it is;
* `signal0`: the indeterminate value of the uninitialised local `signal`;
* `wiringPiSetupPhys`: the result of `wiringPiSetupPhys()`;
* `digitalRead i pin t`: the level read by the `t`-th `digitalRead(pin)` of
  attempt `i` (`true` is HIGH). -/
structure World where
  sscanf_d : String → Option Nat
  signal0 : Nat
  wiringPiSetupPhys : Int
  digitalRead : (i : Nat) → (pin : Nat) → (t : Nat) → Bool

/-- Lines 144-151: one handshake cycle on pin `signal`. -/
def handshakeCycle (signal : Nat) : List Event :=
  [.pinMode signal true, .digitalWrite signal false, .delay 20,
   .pinMode signal false, .readData signal]

/-- Frame left in `data` by `readData` in attempt `i`, entered with `data`. -/
def attemptData (w : World) (signal i : Nat) (data : List Nat) : List Nat :=
  (readData (w.digitalRead i signal) data).state.data

/-- The retry loop, lines 142-193, with `n = MAX_RETRIES - i` iterations left:
returns `valid`, the final `data` and the events appended to `tr`. -/
def retryLoop (w : World) (signal : Nat) :
    Nat → Nat → List Nat → List Event → Bool × List Nat × List Event
  | 0, _, data, tr => (false, data, tr)
  | n + 1, i, data, tr =>
    let tr1 := tr ++ handshakeCycle signal
    let data1 := attemptData w signal i data
    if accepted data1 then
      (true, data1, tr1 ++ [.toJson (celsius data1) (humidity data1) NO_ERROR])
    else
      retryLoop w signal n (i + 1) (resetData data1) (tr1 ++ [.delay 2000])

/-- Value of `signal` after line 132. -/
def signalOf (argv : List String) (w : World) : Nat :=
  (w.sscanf_d (argv.getD 1 "")).getD w.signal0

/-- `main(argc, argv)` with `argc = argv.length`: exit status and events. -/
def main (argv : List String) (w : World) : Int × List Event :=
  if argv.length ≠ 2 then (1, [.usage])
  else
    let signal := signalOf argv w
    if w.wiringPiSetupPhys = -1 then (-126, [.toJson 0 0 GPIO_INIT_FAILED])
    else
      let r := retryLoop w signal MAX_RETRIES 0 zeroFrame []
      if !r.1 then (0, r.2.2 ++ [.toJson 0 0 NO_DATA]) else (0, r.2.2)

/-- World whose pin is HIGH at every sample of every attempt. -/
def stuckWorld : World :=
  { sscanf_d := fun _ => some 7, signal0 := 0, wiringPiSetupPhys := 0,
    digitalRead := fun _ _ _ => true }

/-- A `readData` call among the events. -/
def Event.isRead : Event → Bool
  | .readData _ => true
  | _ => false

/-- A record printed by `toJson` among the events. -/
def Event.isRecord : Event → Bool
  | .toJson _ _ _ => true
  | _ => false

/-- A pause of 2000 ms among the events. -/
def Event.isPause : Event → Bool
  | .delay ms => ms == 2000
  | _ => false

/-! ## Pin streams made of pulses -/

/-- Stream that reads the levels of `l`, then HIGH for ever. -/
def pinOf (l : List Bool) : Nat → Bool := fun t => l.getD t true

/-- Samples of a list of pulses `(gap, d)`: `gap` LOW samples, then `d` HIGH
samples, for each pulse in turn. -/
def pulseSamples : List (Nat × Nat) → List Bool
  | [] => []
  | p :: ps => List.replicate p.1 false ++ (List.replicate p.2 true ++ pulseSamples ps)

/-- The samples of the pulses `ps`, then `tail` LOW samples. -/
def streamOf (ps : List (Nat × Nat)) (tail : Nat) : List Bool :=
  pulseSamples ps ++ List.replicate tail false

/-- The pin reads the levels of `l` from sample `t` on. -/
def Reads (pin : Nat → Bool) (t : Nat) (l : List Bool) : Prop :=
  ∀ j, j < l.length → pin (t + j) = l.getD j true

/-- Bit a classified pulse of `d` ticks stands for. -/
def bitOf (d : Nat) : Nat := if d < 30 then 0 else 1

/-- Number whose binary digits, most significant first, are the bits of `ds`. -/
def byteOf (ds : List Nat) : Nat := ds.foldl (fun acc d => 2 * acc + bitOf d) 0

/-- Bits of the byte `b`, most significant first. -/
def bitsOfByte (b : Nat) : List Nat := (List.range 8).map fun j => (b / 2 ^ (7 - j)) % 2

/-- Pulses that send the bytes `bs`: two handshake pulses, then one pulse a
bit, of 30 ticks for a 1 and of 1 tick for a 0, each after one LOW sample. -/
def pulsesOfBytes (bs : List Nat) : List (Nat × Nat) :=
  [(0, 5), (1, 60)] ++
    ((bs.map bitsOfByte).flatten.map fun b => (1, if b = 1 then 30 else 1))

/-- Pulses sending the frame `0x01, 0x90, 0x80, 0x15, 0x26`. -/
def framePulses : List (Nat × Nat) := pulsesOfBytes [0x01, 0x90, 0x80, 0x15, 0x26]

/-- Forty-two pulses, all data bits 1, with 50001 LOW samples between the
first pulse and the second. -/
def latePulses : List (Nat × Nat) := (0, 5) :: (50001, 5) :: List.replicate 40 (1, 40)

/-- World whose pin is stuck HIGH in the first attempt and sends the frame
`0x01, 0x90, 0x80, 0x15, 0x26` in the later ones. -/
def retryWorld : World :=
  { sscanf_d := fun _ => some 7, signal0 := 0, wiringPiSetupPhys := 0,
    digitalRead := fun i _ =>
      match i with
      | 0 => fun _ => true
      | _ => pinOf (streamOf framePulses 1) }

/-! ## What the decoder has done, as a function of the classified pulses -/

/-- Stores made once the pulses `ps` are classified: store number `k` (from 0)
is made at index `k` and holds the bits of pulses `8k+3 .. 8k+10`. -/
def storesOf (ps : List Nat) : List (Int × Nat) :=
  (List.range ((ps.length - 2) / 8)).map fun (k : Nat) =>
    ((k : Int), byteOf ((ps.drop (8 * k + 2)).take 8))

/-- Frame after the stores `st` on the frame `d0`. -/
def applyStores (d0 : List Nat) (st : List (Int × Nat)) : List Nat :=
  st.foldl (fun d p => writeData d p.1 p.2) d0

/-- Bits held by the accumulator once `n` pulses are classified. -/
def vcOf (n : Nat) : Nat := if n < 3 then 0 else (n - 2) % 8

/-- Pulses seen so far: the classified ones and the one in progress. -/
def seen (s : RState) : List Nat :=
  s.pulses ++ (if s.signal_length = 0 then [] else [s.signal_length])

/-- Invariant of `readData` between two `digitalRead` calls, `d0` being the
frame on entry. -/
structure Inv (d0 : List Nat) (s : RState) : Prop where
  lc : s.loop_counter = s.pulses.length
  wd : s.pulses.length ≤ s.watchdog
  wdle : s.watchdog ≤ WATCHDOG_THRESHOLD
  sl : s.signal_length < 200
  smp : s.samples ≤ 85 * s.watchdog + s.signal_length
  vc : s.val_counter = vcOf s.pulses.length
  acc : s.val = byteOf (s.pulses.drop (s.pulses.length - s.val_counter))
  st : s.stores = storesOf s.pulses
  dat : s.data = applyStores d0 s.stores
  rng : ∀ d ∈ s.pulses, 1 ≤ d ∧ d < 85

/-- What holds of the state `readData` returns in. -/
structure FinalInv (d0 : List Nat) (s : RState) : Prop where
  wd : s.pulses.length ≤ s.watchdog
  wdle : s.watchdog ≤ WATCHDOG_THRESHOLD + 1
  smp : s.samples ≤ 85 * WATCHDOG_THRESHOLD + 200
  st : s.stores = storesOf s.pulses
  dat : s.data = applyStores d0 s.stores
  rng : ∀ d ∈ s.pulses, 1 ≤ d ∧ d < 85

/-! ## Further inputs and the frames of the retry loop -/

/-- Frames held by `data` when the attempts made by `retryLoop` start (the
value of `data` when line 144 is reached), first attempt first. -/
def retryFrames (w : World) (signal : Nat) : Nat → Nat → List Nat → List (List Nat)
  | 0, _, _ => []
  | n + 1, i, data =>
    data :: (if accepted (attemptData w signal i data) then []
             else retryFrames w signal n (i + 1) (resetData (attemptData w signal i data)))

/-- The first 41 of the pulses sending `0x01, 0x90, 0x80, 0x15, 0x26`: the
last bit of the checksum byte is missing. -/
def partialPulses : List (Nat × Nat) := framePulses.take 41

/-- World whose pin reads the 41 pulses of `partialPulses`, one LOW sample,
then HIGH, in every attempt. -/
def partialWorld : World :=
  { sscanf_d := fun _ => some 7, signal0 := 0, wiringPiSetupPhys := 0,
    digitalRead := fun _ _ => pinOf (streamOf partialPulses 1) }

/-- Fifty pulses of one tick, each after one LOW sample. -/
def fiftyPulses : List (Nat × Nat) := List.replicate 50 (1, 1)

/-- The pulses sending `0x01, 0x90, 0x80, 0x15, 0x26`, one LOW sample, then a
43rd pulse of 100 ticks and the LOW sample that ends it. -/
def longPulseStream : List Bool :=
  streamOf framePulses 1 ++ (List.replicate 100 true ++ [false])

/-- World whose pin reads `longPulseStream` in every attempt. -/
def longPulseWorld : World :=
  { sscanf_d := fun _ => some 7, signal0 := 0, wiringPiSetupPhys := 0,
    digitalRead := fun _ _ => pinOf longPulseStream }

/-- World where `sscanf` converts nothing (the argument is not a number), the
local `signal` happens to hold 0, and the pin is stuck HIGH. -/
def noPinWorld : World :=
  { sscanf_d := fun _ => none, signal0 := 0, wiringPiSetupPhys := 0,
    digitalRead := fun _ _ _ => true }

/-- World where `wiringPiSetupPhys()` returns -1. -/
def initFailWorld : World :=
  { sscanf_d := fun _ => some 7, signal0 := 0, wiringPiSetupPhys := -1,
    digitalRead := fun _ _ _ => true }

/-- World whose pin is HIGH for the first 100 samples of every attempt and
LOW afterwards. -/
def longFirstWorld : World :=
  { sscanf_d := fun _ => some 7, signal0 := 0, wiringPiSetupPhys := 0,
    digitalRead := fun _ _ t => decide (t < 100) }

/-! ## Arithmetic of the accumulator -/

theorem shl_one (v : Nat) : v <<< 1 = 2 * v := by
  simp [Nat.shiftLeft_eq, Nat.mul_comm]

theorem or_one_even (v : Nat) : (2 * v) ||| 1 = 2 * v + 1 := by
  have h := Nat.mul_add_lt_is_or (i := 1) (b := 1) (by decide) v
  simpa using h.symm

theorem u16_of_lt {n : Nat} (h : n < 65536) : u16 n = n := Nat.mod_eq_of_lt h

theorem byteOf_append (ds : List Nat) (d : Nat) :
    byteOf (ds ++ [d]) = 2 * byteOf ds + bitOf d := by
  simp [byteOf, List.foldl_append]

theorem bitOf_le (d : Nat) : bitOf d ≤ 1 := by
  unfold bitOf; split <;> omega

theorem byteOf_lt (ds : List Nat) : byteOf ds < 2 ^ ds.length := by
  induction ds using List.reverseRecOn with
  | nil => simp [byteOf]
  | append_singleton ds d ih =>
    rw [byteOf_append, List.length_append, List.length_singleton, Nat.pow_succ]
    have := bitOf_le d
    omega

theorem vcOf_lt (n : Nat) : vcOf n < 8 := by
  unfold vcOf; split <;> omega

theorem vcOf_le (n : Nat) : vcOf n ≤ n := by
  unfold vcOf; split <;> omega

/-! ## Stores as a function of the pulses -/

theorem storesOf_append_same (ps : List Nat) (d : Nat)
    (h : (ps.length + 1 - 2) / 8 = (ps.length - 2) / 8) :
    storesOf (ps ++ [d]) = storesOf ps := by
  unfold storesOf
  rw [List.length_append, List.length_singleton, h]
  apply List.map_congr_left
  intro k hk
  have hk' : k < (ps.length - 2) / 8 := List.mem_range.mp hk
  have h1 : 8 * k + 2 ≤ ps.length := by omega
  rw [List.drop_append_of_le_length h1, List.take_append_of_le_length]
  rw [List.length_drop]; omega

theorem storesOf_append_store (ps : List Nat) (d : Nat) (k : Nat)
    (h : ps.length + 1 = 8 * k + 10) :
    storesOf (ps ++ [d]) =
      storesOf ps ++ [((k : Int), byteOf ((ps ++ [d]).drop (ps.length + 1 - 8)))] := by
  unfold storesOf
  have e1 : ((ps ++ [d]).length - 2) / 8 = k + 1 := by
    rw [List.length_append, List.length_singleton]; omega
  have e2 : (ps.length - 2) / 8 = k := by omega
  rw [e1, e2, List.range_succ, List.map_append, List.map_singleton]
  congr 1
  · apply List.map_congr_left
    intro j hj
    have hj' : j < k := List.mem_range.mp hj
    have h1 : 8 * j + 2 ≤ ps.length := by omega
    rw [List.drop_append_of_le_length h1, List.take_append_of_le_length]
    rw [List.length_drop]; omega
  · have e3 : ps.length + 1 - 8 = 8 * k + 2 := by omega
    rw [e3, List.take_of_length_le]
    rw [List.length_drop, List.length_append, List.length_singleton]; omega

theorem applyStores_append (d0 : List Nat) (st : List (Int × Nat)) (p : Int × Nat) :
    applyStores d0 (st ++ [p]) = writeData (applyStores d0 st) p.1 p.2 := by
  simp [applyStores, List.foldl_append]

/-! ## One sample -/

theorem pulseBlock_idle (s : RState) (h : s.signal_length = 0) : pulseBlock s = some s := by
  simp [pulseBlock, h]

theorem pulseBlock_classified (s : RState) (h0 : 0 < s.signal_length)
    (h85 : s.signal_length < 85) (hlc : s.loop_counter < 65535) (hv : s.val < 32768)
    (hvc : s.val_counter < 65535) :
    pulseBlock s = some s.classified := by
  have e1 : u16 (s.loop_counter + 1) = s.loop_counter + 1 := u16_of_lt (by omega)
  have e2 : u16 (s.val_counter + 1) = s.val_counter + 1 := u16_of_lt (by omega)
  have e3 : u16 (s.val <<< 1) = 2 * s.val := by rw [shl_one]; exact u16_of_lt (by omega)
  have e4 : u16 (2 * s.val ||| 1) = 2 * s.val + 1 := by
    rw [or_one_even]; exact u16_of_lt (by omega)
  unfold pulseBlock RState.classified
  rw [if_pos h0]
  by_cases h10 : s.signal_length < 10
  · have h30 : s.signal_length < 30 := by omega
    simp only [h10, h30, if_true, e1, e2, e3, Nat.add_zero]
  · by_cases h30 : s.signal_length < 30
    · simp only [h10, h30, if_true, if_false, e1, e2, e3, Nat.add_zero]
    · simp only [h10, h30, h85, if_true, if_false, e1, e2, e3, e4]

theorem pulseBlock_unclassifiable (s : RState) (h : 85 ≤ s.signal_length) :
    pulseBlock s = none := by
  unfold pulseBlock
  rw [if_pos (by omega), if_neg (by omega), if_neg (by omega), if_neg (by omega)]

theorem inv_val_lt {d0 : List Nat} {s : RState} (hI : Inv d0 s) :
    s.val < 2 ^ s.val_counter := by
  have h := byteOf_lt (s.pulses.drop (s.pulses.length - s.val_counter))
  rw [← hI.acc, List.length_drop] at h
  have hle := vcOf_le s.pulses.length
  rw [← hI.vc] at hle
  have e : s.pulses.length - (s.pulses.length - s.val_counter) = s.val_counter := by omega
  rwa [e] at h

theorem inv_val_lt_128 {d0 : List Nat} {s : RState} (hI : Inv d0 s) : s.val < 128 := by
  have h := inv_val_lt hI
  have hvc := vcOf_lt s.pulses.length
  rw [← hI.vc] at hvc
  have : 2 ^ s.val_counter ≤ 2 ^ 7 := Nat.pow_le_pow_right (by decide) (by omega)
  omega

/-- A HIGH sample counts one tick, and returns on the 200th. -/
theorem sample_high {d0 : List Nat} {s : RState} (hI : Inv d0 s) :
    sample s true =
      if s.signal_length + 1 < 200 then
        .cont { s.tick with signal_length := s.signal_length + 1 }
      else .ret { s.tick with signal_length := s.signal_length + 1 } .stuckHigh := by
  have hsl := hI.sl
  have e : u16 (s.tick.signal_length + 1) = s.signal_length + 1 := u16_of_lt (by
    show s.signal_length + 1 < 65536; omega)
  unfold sample
  simp only [if_true, e]
  by_cases h : s.signal_length + 1 < 200
  · rw [if_neg (by omega), if_pos h]
  · rw [if_pos (by omega), if_neg h]

theorem handshakeReset_idle {d0 : List Nat} {s : RState} (hI : Inv d0 s) :
    handshakeReset s.tick = s.tick := by
  unfold handshakeReset
  by_cases h3 : s.tick.loop_counter < 3
  · have h3' : s.loop_counter < 3 := h3
    have hc : s.val_counter = 0 := by rw [hI.vc, vcOf, if_pos (by rw [← hI.lc]; exact h3')]
    have hv : s.val = 0 := by
      rw [hI.acc, hc, Nat.sub_zero, List.drop_length]; rfl
    rw [if_pos h3]
    simp only [RState.tick, hc, hv]
  · rw [if_neg h3]

theorem storeByte_idle {d0 : List Nat} {s : RState} (hI : Inv d0 s) :
    storeByte s.tick = s.tick := by
  have hvc := vcOf_lt s.pulses.length
  rw [← hI.vc] at hvc
  unfold storeByte
  rw [if_neg (by show ¬ 8 ≤ s.val_counter; omega)]

/-- A LOW sample with no pulse pending only advances the watchdog. -/
theorem sample_low_idle {d0 : List Nat} {s : RState} (hI : Inv d0 s)
    (h0 : s.signal_length = 0) :
    sample s false =
      if s.watchdog + 1 ≤ WATCHDOG_THRESHOLD then
        .cont { s.tick with watchdog := s.watchdog + 1 }
      else .ret { s.tick with watchdog := s.watchdog + 1 } .watchdog := by
  unfold sample
  simp only [Bool.false_eq_true, if_false]
  rw [pulseBlock_idle s.tick h0]
  simp only [handshakeReset_idle hI, storeByte_idle hI]
  rfl

theorem handshakeReset_watchdog (s : RState) : (handshakeReset s).watchdog = s.watchdog := by
  unfold handshakeReset; split <;> rfl

theorem storeByte_watchdog (s : RState) : (storeByte s).watchdog = s.watchdog := by
  unfold storeByte; split <;> rfl

/-- A LOW sample that ends a classifiable pulse. -/
theorem sample_low_pulse {d0 : List Nat} {s : RState} (hI : Inv d0 s)
    (h0 : 0 < s.signal_length) (h85 : s.signal_length < 85) :
    sample s false =
      if s.watchdog + 1 ≤ WATCHDOG_THRESHOLD then
        .cont { storeByte (handshakeReset s.tick.classified) with watchdog := s.watchdog + 1 }
      else
        .ret { storeByte (handshakeReset s.tick.classified) with watchdog := s.watchdog + 1 }
          .watchdog := by
  have hv := inv_val_lt_128 hI
  have hvc := vcOf_lt s.pulses.length
  rw [← hI.vc] at hvc
  have hlc : s.loop_counter < 65535 := by
    have h1 := hI.wd; have h2 := hI.wdle; rw [hI.lc]; unfold WATCHDOG_THRESHOLD at h2; omega
  have hp := pulseBlock_classified s.tick h0 h85 hlc (by show s.val < 32768; omega)
    (by show s.val_counter < 65535; omega)
  unfold sample
  simp only [Bool.false_eq_true, if_false]
  rw [hp]
  simp only [storeByte_watchdog, handshakeReset_watchdog]
  rfl

/-- A LOW sample that ends a pulse of 85 ticks or more. -/
theorem sample_low_unclassifiable (s : RState) (h : 85 ≤ s.signal_length) :
    sample s false =
      .ret { s.tick with loop_counter := u16 (s.loop_counter + 1) } .unclassifiable := by
  unfold sample
  simp only [Bool.false_eq_true, if_false]
  rw [pulseBlock_unclassifiable s.tick h]
  rfl

/-! ## The invariant is kept -/

theorem byteOf_drop_all (ps : List Nat) (n : Nat) (h : ps.length ≤ n) :
    byteOf (ps.drop n) = 0 := by
  rw [List.drop_eq_nil_of_le h]; rfl

/-- State after a classified pulse, in terms of the pulses. -/
theorem afterPulse_spec {d0 : List Nat} {s : RState} (hI : Inv d0 s) :
    (storeByte (handshakeReset s.tick.classified)).loop_counter = s.pulses.length + 1 ∧
    (storeByte (handshakeReset s.tick.classified)).pulses = s.pulses ++ [s.signal_length] ∧
    (storeByte (handshakeReset s.tick.classified)).signal_length = 0 ∧
    (storeByte (handshakeReset s.tick.classified)).samples = s.samples + 1 ∧
    (storeByte (handshakeReset s.tick.classified)).val_counter = vcOf (s.pulses.length + 1) ∧
    (storeByte (handshakeReset s.tick.classified)).val =
      byteOf ((s.pulses ++ [s.signal_length]).drop
        (s.pulses.length + 1 - vcOf (s.pulses.length + 1))) ∧
    (storeByte (handshakeReset s.tick.classified)).stores =
      storesOf (s.pulses ++ [s.signal_length]) ∧
    (storeByte (handshakeReset s.tick.classified)).data =
      applyStores d0 (storesOf (s.pulses ++ [s.signal_length])) := by
  have hlc := hI.lc
  have hvc := hI.vc
  have hvlt := vcOf_lt s.pulses.length
  have hvle := vcOf_le s.pulses.length
  have hacc := hI.acc
  by_cases h3 : s.pulses.length + 1 < 3
  · -- still in the handshake: the accumulator is cleared
    have hr : handshakeReset s.tick.classified =
        { s.tick.classified with val := 0, val_counter := 0 } := by
      unfold handshakeReset
      rw [if_pos (by show s.loop_counter + 1 < 3; omega)]
    have hs : storeByte { s.tick.classified with val := 0, val_counter := 0 } =
        { s.tick.classified with val := 0, val_counter := 0 } := by
      unfold storeByte; rw [if_neg (by show ¬ 8 ≤ 0; omega)]
    rw [hr, hs]
    have hv0 : vcOf (s.pulses.length + 1) = 0 := by unfold vcOf; rw [if_pos h3]
    have hsame := storesOf_append_same s.pulses s.signal_length (by omega)
    refine ⟨by show s.loop_counter + 1 = _; omega, rfl, rfl, rfl, hv0.symm, ?_, ?_, ?_⟩
    · rw [hv0, byteOf_drop_all _ _ (by simp)]
    · show s.stores = _; rw [hsame, hI.st]
    · show s.data = _; rw [hsame, hI.dat, hI.st]
  · have hr : handshakeReset s.tick.classified = s.tick.classified := by
      unfold handshakeReset
      rw [if_neg (by show ¬ s.loop_counter + 1 < 3; omega)]
    rw [hr]
    have hdrop : (s.pulses ++ [s.signal_length]).drop (s.pulses.length - s.val_counter) =
        s.pulses.drop (s.pulses.length - s.val_counter) ++ [s.signal_length] :=
      List.drop_append_of_le_length (by omega)
    have hval : 2 * s.val + bitOf s.signal_length =
        byteOf ((s.pulses ++ [s.signal_length]).drop (s.pulses.length - s.val_counter)) := by
      rw [hdrop, byteOf_append, ← hacc]
    by_cases h8 : s.val_counter + 1 < 8
    · -- the byte is not complete
      have hs : storeByte s.tick.classified = s.tick.classified := by
        unfold storeByte; rw [if_neg (by show ¬ 8 ≤ s.val_counter + 1; omega)]
      rw [hs]
      have hv1 : vcOf (s.pulses.length + 1) = s.val_counter + 1 := by
        rw [hvc]; unfold vcOf
        by_cases hn : s.pulses.length < 3
        · rw [if_neg h3, if_pos hn]; omega
        · rw [if_neg h3, if_neg hn]
          rw [hvc] at h8; unfold vcOf at h8; rw [if_neg hn] at h8
          omega
      have hsame := storesOf_append_same s.pulses s.signal_length (by
        rw [hvc] at h8; unfold vcOf at h8
        by_cases hn : s.pulses.length < 3
        · omega
        · rw [if_neg hn] at h8; omega)
      refine ⟨by show s.loop_counter + 1 = _; omega, rfl, rfl, rfl, hv1.symm, ?_, ?_, ?_⟩
      · show 2 * s.val + bitOf s.signal_length = _
        rw [hv1, hval]; congr 2; omega
      · show s.stores = _; rw [hsame, hI.st]
      · show s.data = _; rw [hsame, hI.dat, hI.st]
    · -- the eighth bit: the byte is stored
      have hn : ¬ s.pulses.length < 3 := by
        intro hn; rw [hvc] at h8; unfold vcOf at h8; rw [if_pos hn] at h8; omega
      have h7 : (s.pulses.length - 2) % 8 = 7 := by
        rw [hvc] at h8; unfold vcOf at h8 hvlt; rw [if_neg hn] at h8 hvlt; omega
      have hc7 : s.val_counter = 7 := by rw [hvc]; unfold vcOf; rw [if_neg hn]; exact h7
      have hk : s.pulses.length + 1 = 8 * ((s.pulses.length - 9) / 8) + 10 := by omega
      have hidx : (((s.loop_counter + 1) / 8 : Nat) : Int) - 1 =
          (((s.pulses.length - 9) / 8 : Nat) : Int) := by
        rw [hlc]; omega
      have hstore := storesOf_append_store s.pulses s.signal_length _ hk
      have hv0 : vcOf (s.pulses.length + 1) = 0 := by
        unfold vcOf; rw [if_neg h3]; omega
      have hbyte : u16 (2 * s.val + bitOf s.signal_length) =
          byteOf ((s.pulses ++ [s.signal_length]).drop (s.pulses.length + 1 - 8)) := by
        have h128 := inv_val_lt_128 hI
        have hb := bitOf_le s.signal_length
        rw [u16_of_lt (by omega), hval]; congr 2; omega
      have hs : storeByte s.tick.classified =
          { s.tick.classified with
            data := writeData s.data ((((s.loop_counter + 1) / 8 : Nat) : Int) - 1)
              (u16 (2 * s.val + bitOf s.signal_length)),
            stores := s.stores ++ [((((s.loop_counter + 1) / 8 : Nat) : Int) - 1,
              u16 (2 * s.val + bitOf s.signal_length))],
            val := 0, val_counter := 0 } := by
        unfold storeByte; rw [if_pos (by show 8 ≤ s.val_counter + 1; omega)]; rfl
      rw [hs]
      refine ⟨by show s.loop_counter + 1 = _; omega, rfl, rfl, rfl, hv0.symm, ?_, ?_, ?_⟩
      · rw [hv0, byteOf_drop_all _ _ (by simp)]
      · show s.stores ++ [_] = _
        rw [hstore, hidx, hbyte, hI.st]
      · show writeData s.data _ _ = _
        rw [hstore, applyStores_append, hidx, hbyte, hI.dat, hI.st]

theorem inv_init (d0 : List Nat) : Inv d0 (RState.init d0) where
  lc := rfl
  wd := Nat.le_refl _
  wdle := by unfold WATCHDOG_THRESHOLD; exact Nat.zero_le _
  sl := by show 0 < 200; omega
  smp := Nat.le_refl _
  vc := rfl
  acc := rfl
  st := by simp [RState.init, storesOf]
  dat := rfl
  rng := by intro d hd; cases hd

/-- A sample that does not return keeps the invariant. -/
theorem sample_cont_inv {d0 : List Nat} {s s' : RState} {b : Bool} (hI : Inv d0 s)
    (h : sample s b = .cont s') : Inv d0 s' ∧ s'.samples = s.samples + 1 := by
  have hsl := hI.sl
  have hsmp := hI.smp
  cases b with
  | true =>
    rw [sample_high hI] at h
    by_cases hc : s.signal_length + 1 < 200
    · rw [if_pos hc] at h
      injection h with h
      subst h
      exact ⟨{ lc := hI.lc, wd := hI.wd, wdle := hI.wdle, sl := hc,
               smp := by show s.samples + 1 ≤ 85 * s.watchdog + (s.signal_length + 1); omega,
               vc := hI.vc, acc := hI.acc, st := hI.st, dat := hI.dat, rng := hI.rng }, rfl⟩
    · rw [if_neg hc] at h; cases h
  | false =>
    by_cases h0 : s.signal_length = 0
    · rw [sample_low_idle hI h0] at h
      by_cases hw : s.watchdog + 1 ≤ WATCHDOG_THRESHOLD
      · rw [if_pos hw] at h
        injection h with h
        subst h
        exact ⟨{ lc := hI.lc, wd := Nat.le_succ_of_le hI.wd, wdle := hw,
                 sl := hI.sl,
                 smp := by
                  show s.samples + 1 ≤ 85 * (s.watchdog + 1) + s.signal_length; omega,
                 vc := hI.vc, acc := hI.acc, st := hI.st, dat := hI.dat, rng := hI.rng }, rfl⟩
      · rw [if_neg hw] at h; cases h
    · by_cases h85 : s.signal_length < 85
      · rw [sample_low_pulse hI (by omega) h85] at h
        obtain ⟨a1, a2, a3, a4, a5, a6, a7, a8⟩ := afterPulse_spec hI
        by_cases hw : s.watchdog + 1 ≤ WATCHDOG_THRESHOLD
        · rw [if_pos hw] at h
          injection h with h
          subst h
          have hwd := hI.wd
          refine ⟨{ lc := ?_, wd := ?_, wdle := hw, sl := ?_, smp := ?_, vc := ?_, acc := ?_,
                    st := ?_, dat := ?_, rng := ?_ }, a4⟩
          · show (storeByte _).loop_counter = (storeByte _).pulses.length
            rw [a1, a2, List.length_append, List.length_singleton]
          · show (storeByte _).pulses.length ≤ s.watchdog + 1
            rw [a2, List.length_append, List.length_singleton]; omega
          · show (storeByte _).signal_length < 200
            rw [a3]; omega
          · show (storeByte _).samples ≤ 85 * (s.watchdog + 1) + (storeByte _).signal_length
            rw [a3, a4]; omega
          · show (storeByte _).val_counter = vcOf (storeByte _).pulses.length
            rw [a5, a2, List.length_append, List.length_singleton]
          · show (storeByte _).val = byteOf ((storeByte _).pulses.drop
              ((storeByte _).pulses.length - (storeByte _).val_counter))
            rw [a6, a5, a2, List.length_append, List.length_singleton]
          · show (storeByte _).stores = storesOf (storeByte _).pulses
            rw [a7, a2]
          · show (storeByte _).data = applyStores d0 (storeByte _).stores
            rw [a8, a7]
          · show ∀ d ∈ (storeByte _).pulses, 1 ≤ d ∧ d < 85
            rw [a2]
            intro d hd
            rcases List.mem_append.mp hd with hd | hd
            · exact hI.rng d hd
            · rw [List.mem_singleton] at hd; subst hd; omega
        · rw [if_neg hw] at h; cases h
      · rw [sample_low_unclassifiable s (by omega)] at h; cases h

/-- A sample that returns leaves a state described by `FinalInv`. -/
theorem sample_ret_inv {d0 : List Nat} {s s' : RState} {b : Bool} {e : Exit}
    (hI : Inv d0 s) (h : sample s b = .ret s' e) :
    FinalInv d0 s' ∧ s'.samples = s.samples + 1 := by
  have hsl := hI.sl
  have hsmp := hI.smp
  have hwd := hI.wd
  have hwdle := hI.wdle
  have hfuel : s.samples + 1 ≤ 85 * WATCHDOG_THRESHOLD + 200 := by
    unfold WATCHDOG_THRESHOLD at *; omega
  cases b with
  | true =>
    rw [sample_high hI] at h
    by_cases hc : s.signal_length + 1 < 200
    · rw [if_pos hc] at h; cases h
    · rw [if_neg hc] at h
      injection h with h _
      subst h
      exact ⟨{ wd := hI.wd, wdle := Nat.le_succ_of_le hI.wdle, smp := hfuel, st := hI.st,
               dat := hI.dat, rng := hI.rng }, rfl⟩
  | false =>
    by_cases h0 : s.signal_length = 0
    · rw [sample_low_idle hI h0] at h
      by_cases hw : s.watchdog + 1 ≤ WATCHDOG_THRESHOLD
      · rw [if_pos hw] at h; cases h
      · rw [if_neg hw] at h
        injection h with h _
        subst h
        exact ⟨{ wd := Nat.le_succ_of_le hI.wd, wdle := Nat.succ_le_succ hI.wdle,
                 smp := hfuel, st := hI.st, dat := hI.dat, rng := hI.rng }, rfl⟩
    · by_cases h85 : s.signal_length < 85
      · rw [sample_low_pulse hI (by omega) h85] at h
        obtain ⟨a1, a2, a3, a4, a5, a6, a7, a8⟩ := afterPulse_spec hI
        by_cases hw : s.watchdog + 1 ≤ WATCHDOG_THRESHOLD
        · rw [if_pos hw] at h; cases h
        · rw [if_neg hw] at h
          injection h with h _
          subst h
          refine ⟨{ wd := ?_, wdle := Nat.succ_le_succ hI.wdle, smp := ?_, st := ?_,
                    dat := ?_, rng := ?_ }, a4⟩
          · show (storeByte _).pulses.length ≤ s.watchdog + 1
            rw [a2, List.length_append, List.length_singleton]; omega
          · show (storeByte _).samples ≤ 85 * WATCHDOG_THRESHOLD + 200
            rw [a4]; exact hfuel
          · show (storeByte _).stores = storesOf (storeByte _).pulses
            rw [a7, a2]
          · show (storeByte _).data = applyStores d0 (storeByte _).stores
            rw [a8, a7]
          · show ∀ d ∈ (storeByte _).pulses, 1 ≤ d ∧ d < 85
            rw [a2]
            intro d hd
            rcases List.mem_append.mp hd with hd | hd
            · exact hI.rng d hd
            · rw [List.mem_singleton] at hd; subst hd; omega
      · rw [sample_low_unclassifiable s (by omega)] at h
        injection h with h _
        subst h
        exact ⟨{ wd := hI.wd, wdle := Nat.le_succ_of_le hI.wdle, smp := hfuel, st := hI.st,
                 dat := hI.dat, rng := hI.rng }, rfl⟩

/-! ## Runs -/

theorem run_add (pin : Nat → Bool) (a b : Nat) (s : RState) :
    run pin (a + b) s =
      match run pin a s with
      | .cont s1 => run pin b s1
      | .ret s1 e => .ret s1 e := by
  induction a generalizing s with
  | zero => simp [run]
  | succ a ih =>
    rw [Nat.succ_add]
    simp only [run]
    cases hs : sample s (pin s.samples) with
    | cont s1 => simp only [ih]
    | ret s1 e => rfl

theorem run_cont_inv {d0 : List Nat} (pin : Nat → Bool) (n : Nat) {s s' : RState}
    (hI : Inv d0 s) (h : run pin n s = .cont s') :
    Inv d0 s' ∧ s'.samples = s.samples + n := by
  induction n generalizing s with
  | zero =>
    simp only [run] at h
    injection h with h
    subst h
    exact ⟨hI, rfl⟩
  | succ n ih =>
    simp only [run] at h
    cases hs : sample s (pin s.samples) with
    | cont s1 =>
      rw [hs] at h
      obtain ⟨h1, h2⟩ := sample_cont_inv hI hs
      obtain ⟨h3, h4⟩ := ih h1 h
      exact ⟨h3, by omega⟩
    | ret s1 e => rw [hs] at h; cases h

theorem run_ret_inv {d0 : List Nat} (pin : Nat → Bool) (n : Nat) {s s' : RState} {e : Exit}
    (hI : Inv d0 s) (h : run pin n s = .ret s' e) : FinalInv d0 s' := by
  induction n generalizing s with
  | zero => simp only [run] at h; cases h
  | succ n ih =>
    simp only [run] at h
    cases hs : sample s (pin s.samples) with
    | cont s1 =>
      rw [hs] at h
      exact ih (sample_cont_inv hI hs).1 h
    | ret s1 e1 =>
      rw [hs] at h
      injection h with h1 h2
      subst h1
      exact (sample_ret_inv hI hs).1

/-- Once returned, more samples change nothing. -/
theorem run_ret_mono (pin : Nat → Bool) {n m : Nat} {s s' : RState} {e : Exit}
    (h : run pin n s = .ret s' e) (hnm : n ≤ m) : run pin m s = .ret s' e := by
  obtain ⟨k, rfl⟩ := Nat.exists_eq_add_of_le hnm
  rw [run_add, h]

/-- No run from the entry state is still going after `FUEL` samples. -/
theorem run_fuel_not_cont (pin : Nat → Bool) (d0 : List Nat) (s : RState) :
    run pin FUEL (RState.init d0) ≠ .cont s := by
  intro h
  obtain ⟨hI, hs⟩ := run_cont_inv pin FUEL (inv_init d0) h
  have h1 := hI.smp
  have h2 := hI.sl
  have h3 := hI.wdle
  have h4 : (RState.init d0).samples = 0 := rfl
  unfold FUEL at hs
  unfold WATCHDOG_THRESHOLD at *
  omega

/-- `readData` returns, in a state described by `FinalInv`. -/
theorem readData_returns (pin : Nat → Bool) (d0 : List Nat) :
    ∃ s e, readData pin d0 = .ret s e ∧ FinalInv d0 s := by
  unfold readData
  cases h : run pin FUEL (RState.init d0) with
  | cont s => exact absurd h (run_fuel_not_cont pin d0 s)
  | ret s e => exact ⟨s, e, rfl, run_ret_inv pin FUEL (inv_init d0) h⟩

/-- A run that has returned is the result of `readData`. -/
theorem readData_eq_of_run (pin : Nat → Bool) (d0 : List Nat) {n : Nat} {s : RState}
    {e : Exit} (h : run pin n (RState.init d0) = .ret s e) : readData pin d0 = .ret s e := by
  unfold readData
  by_cases hn : n ≤ FUEL
  · exact run_ret_mono pin h hn
  · obtain ⟨s1, e1, h1, _⟩ := readData_returns pin d0
    unfold readData at h1
    have := run_ret_mono pin h1 (Nat.le_of_lt (Nat.lt_of_not_le hn))
    rw [h] at this
    rw [h1, this]

/-! ## Runs over a stretch of equal samples -/

theorem reads_append_left {pin : Nat → Bool} {t : Nat} {l1 l2 : List Bool}
    (h : Reads pin t (l1 ++ l2)) : Reads pin t l1 := by
  intro j hj
  rw [h j (by rw [List.length_append]; omega), List.getD_append _ _ _ _ hj]

theorem reads_append_right {pin : Nat → Bool} {t : Nat} {l1 l2 : List Bool}
    (h : Reads pin t (l1 ++ l2)) : Reads pin (t + l1.length) l2 := by
  intro j hj
  have := h (l1.length + j) (by rw [List.length_append]; omega)
  rw [List.getD_append_right _ _ _ _ (by omega), Nat.add_sub_cancel_left] at this
  rw [Nat.add_assoc]; exact this

theorem reads_replicate {pin : Nat → Bool} {t k : Nat} {b : Bool}
    (h : Reads pin t (List.replicate k b)) : ∀ j, j < k → pin (t + j) = b := by
  intro j hj
  have := h j (by rw [List.length_replicate]; exact hj)
  rw [this, List.getD_eq_getElem _ _ (by rw [List.length_replicate]; exact hj)]
  simp

theorem run_high_seg {d0 : List Nat} (pin : Nat → Bool) (k : Nat) {s : RState}
    (hI : Inv d0 s) (hp : ∀ j, j < k → pin (s.samples + j) = true)
    (hk : s.signal_length + k < 200) :
    run pin k s =
      .cont { s with samples := s.samples + k, signal_length := s.signal_length + k } := by
  induction k generalizing s with
  | zero => rfl
  | succ k ih =>
    have hs : sample s (pin s.samples) =
        .cont { s.tick with signal_length := s.signal_length + 1 } := by
      rw [show pin s.samples = true from hp 0 (by omega), sample_high hI, if_pos (by omega)]
    have hI1 := (sample_cont_inv hI hs).1
    simp only [run, hs]
    rw [ih hI1 (by
      intro j hj
      have := hp (j + 1) (by omega)
      show pin (s.samples + 1 + j) = true
      rw [Nat.add_assoc, Nat.add_comm 1 j]; exact this) (by show s.signal_length + 1 + k < 200; omega)]
    simp only [RState.tick, Nat.add_assoc, Nat.add_comm 1 k]

theorem run_low_seg {d0 : List Nat} (pin : Nat → Bool) (k : Nat) {s : RState}
    (hI : Inv d0 s) (h0 : s.signal_length = 0)
    (hp : ∀ j, j < k → pin (s.samples + j) = false)
    (hk : s.watchdog + k ≤ WATCHDOG_THRESHOLD) :
    run pin k s = .cont { s with samples := s.samples + k, watchdog := s.watchdog + k } := by
  induction k generalizing s with
  | zero => rfl
  | succ k ih =>
    have hs : sample s (pin s.samples) =
        .cont { s.tick with watchdog := s.watchdog + 1 } := by
      rw [show pin s.samples = false from hp 0 (by omega), sample_low_idle hI h0,
        if_pos (by omega)]
    have hI1 := (sample_cont_inv hI hs).1
    simp only [run, hs]
    rw [ih hI1 h0 (by
      intro j hj
      have := hp (j + 1) (by omega)
      show pin (s.samples + 1 + j) = false
      rw [Nat.add_assoc, Nat.add_comm 1 j]; exact this) (by show s.watchdog + 1 + k ≤ _; omega)]
    simp only [RState.tick, Nat.add_assoc, Nat.add_comm 1 k]

/-- A LOW sample within the watchdog budget closes the pulse in progress. -/
theorem sample_low_seen {d0 : List Nat} {s : RState} (hI : Inv d0 s)
    (h85 : s.signal_length < 85) (hw : s.watchdog + 1 ≤ WATCHDOG_THRESHOLD) :
    ∃ s', sample s false = .cont s' ∧ s'.signal_length = 0 ∧ s'.pulses = seen s ∧
      s'.watchdog = s.watchdog + 1 := by
  by_cases h0 : s.signal_length = 0
  · refine ⟨{ s.tick with watchdog := s.watchdog + 1 },
      by rw [sample_low_idle hI h0, if_pos hw], h0, ?_, rfl⟩
    unfold seen; rw [if_pos h0, List.append_nil]; rfl
  · obtain ⟨_, a2, a3, _⟩ := afterPulse_spec hI
    refine ⟨{ storeByte (handshakeReset s.tick.classified) with watchdog := s.watchdog + 1 },
      by rw [sample_low_pulse hI (by omega) h85, if_pos hw], a3, ?_, rfl⟩
    unfold seen; rw [if_neg h0]; exact a2

/-- After a LOW sample that does not return, no pulse is in progress. -/
theorem sample_low_cont_sl {d0 : List Nat} {s s' : RState} (hI : Inv d0 s)
    (h : sample s false = .cont s') : s'.signal_length = 0 := by
  by_cases hw : s.watchdog + 1 ≤ WATCHDOG_THRESHOLD
  · by_cases h85 : s.signal_length < 85
    · obtain ⟨t, ht, h1, _⟩ := sample_low_seen hI h85 hw
      rw [ht] at h; injection h with h; subst h; exact h1
    · rw [sample_low_unclassifiable s (by omega)] at h; cases h
  · by_cases h85 : s.signal_length < 85
    · by_cases h0 : s.signal_length = 0
      · rw [sample_low_idle hI h0, if_neg hw] at h; cases h
      · rw [sample_low_pulse hI (by omega) h85, if_neg hw] at h; cases h
    · rw [sample_low_unclassifiable s (by omega)] at h; cases h

/-- A gap of `k` LOW samples within the watchdog budget. -/
theorem run_gap {d0 : List Nat} (pin : Nat → Bool) (k : Nat) {s : RState}
    (hI : Inv d0 s) (h85 : s.signal_length < 85) (hk1 : s.signal_length ≠ 0 → 1 ≤ k)
    (hp : ∀ j, j < k → pin (s.samples + j) = false)
    (hw : s.watchdog + k ≤ WATCHDOG_THRESHOLD) :
    ∃ s', run pin k s = .cont s' ∧ s'.signal_length = 0 ∧ s'.pulses = seen s ∧
      s'.watchdog = s.watchdog + k := by
  cases k with
  | zero =>
    have h0 : s.signal_length = 0 := by
      by_contra h; have := hk1 h; omega
    refine ⟨s, rfl, h0, ?_, rfl⟩
    unfold seen; rw [if_pos h0, List.append_nil]
  | succ k =>
    obtain ⟨s1, hs1, b1, b2, b3⟩ := sample_low_seen hI h85 (by omega)
    obtain ⟨hI1, hsm⟩ := sample_cont_inv hI hs1
    have hrun := run_low_seg pin k hI1 b1 (by
      intro j hj
      have := hp (j + 1) (by omega)
      rw [hsm, Nat.add_assoc, Nat.add_comm 1 j]; exact this) (by rw [b3]; omega)
    refine ⟨{ s1 with samples := s1.samples + k, watchdog := s1.watchdog + k }, ?_, b1, b2, ?_⟩
    · simp only [run]
      rw [show pin s.samples = false from hp 0 (by omega), hs1]
      exact hrun
    · show s1.watchdog + k = _; rw [b3]; omega

/-! ## Runs over a stream of pulses -/

theorem run_cont_of_add (pin : Nat → Bool) {a b : Nat} {s s1 : RState} {r : Step}
    (h1 : run pin a s = .cont s1) (h2 : run pin b s1 = r) : run pin (a + b) s = r := by
  rw [run_add, h1]; exact h2

/-- The pulses `ps`, read within the watchdog budget, are all seen. -/
theorem run_pulses {d0 : List Nat} (pin : Nat → Bool) (ps : List (Nat × Nat)) {s : RState}
    (hI : Inv d0 s) (h85 : s.signal_length < 85)
    (hhead : s.signal_length = 0 ∨ ∀ p ∈ ps, 1 ≤ p.1)
    (hgap : ∀ p ∈ ps.tail, 1 ≤ p.1)
    (hdur : ∀ p ∈ ps, 1 ≤ p.2 ∧ p.2 ≤ 84)
    (hp : Reads pin s.samples (pulseSamples ps))
    (hw : s.watchdog + (ps.map Prod.fst).sum ≤ WATCHDOG_THRESHOLD) :
    ∃ s', run pin (pulseSamples ps).length s = .cont s' ∧ s'.signal_length < 85 ∧
      seen s' = seen s ++ ps.map Prod.snd ∧
      s'.watchdog = s.watchdog + (ps.map Prod.fst).sum := by
  induction ps generalizing s with
  | nil => exact ⟨s, rfl, h85, by simp, by simp⟩
  | cons p ps ih =>
    obtain ⟨g, d⟩ := p
    simp only [pulseSamples] at hp ⊢
    simp only [List.map_cons, List.sum_cons] at hw ⊢
    have hd := hdur (g, d) (List.mem_cons_self _ _)
    simp only at hd
    -- the gap
    have hpg := reads_replicate (reads_append_left hp)
    obtain ⟨s1, r1, b1, b2, b3⟩ := run_gap pin g hI h85 (by
      intro h
      rcases hhead with h0 | hg
      · exact absurd h0 h
      · exact hg (g, d) (List.mem_cons_self _ _)) hpg (by omega)
    obtain ⟨hI1, hs1⟩ := run_cont_inv pin g hI r1
    -- the pulse
    have hp2 := reads_append_right hp
    rw [List.length_replicate, ← hs1] at hp2
    have hpd := reads_replicate (reads_append_left hp2)
    have r2 := run_high_seg pin d hI1 hpd (by omega)
    obtain ⟨hI2, hs2⟩ := run_cont_inv pin d hI1 r2
    -- the other pulses
    have hp3 := reads_append_right hp2
    rw [List.length_replicate] at hp3
    obtain ⟨s3, r3, c1, c2, c3⟩ := ih hI2 (by show s1.signal_length + d < 85; omega)
      (Or.inr (fun q hq => hgap q hq)) (fun q hq => hgap q (List.mem_of_mem_tail hq))
      (fun q hq => hdur q (List.mem_cons_of_mem _ hq)) hp3
      (by show s1.watchdog + _ ≤ _; omega)
    refine ⟨s3, ?_, c1, ?_, ?_⟩
    · rw [List.length_append, List.length_append, List.length_replicate, List.length_replicate]
      exact run_cont_of_add pin r1 (run_cont_of_add pin r2 r3)
    · rw [c2]
      have : seen { s1 with samples := s1.samples + d, signal_length := s1.signal_length + d } =
          seen s ++ [d] := by
        unfold seen
        rw [if_neg (by show ¬ s1.signal_length + d = 0; omega)]
        show s1.pulses ++ [s1.signal_length + d] = _
        rw [b1, b2, Nat.zero_add]; rfl
      rw [this, List.append_assoc]; rfl
    · rw [c3]; show s1.watchdog + _ = _; omega

/-- A stream of classifiable pulses read within the watchdog budget, then
the line HIGH for 200 samples: `readData` returns on the 200th, having
classified exactly these pulses. -/
theorem readData_of_pulses (d0 : List Nat) (pin : Nat → Bool) (ps : List (Nat × Nat))
    (tail : Nat) (hgap : ∀ p ∈ ps.tail, 1 ≤ p.1) (hdur : ∀ p ∈ ps, 1 ≤ p.2 ∧ p.2 ≤ 84)
    (htail : 1 ≤ tail) (hw : (ps.map Prod.fst).sum + tail ≤ WATCHDOG_THRESHOLD)
    (hp : Reads pin 0 (streamOf ps tail ++ List.replicate 200 true)) :
    ∃ s, readData pin d0 = .ret s .stuckHigh ∧ s.pulses = ps.map Prod.snd ∧
      s.stores = storesOf (ps.map Prod.snd) ∧
      s.data = applyStores d0 (storesOf (ps.map Prod.snd)) ∧
      s.samples = (streamOf ps tail).length + 200 := by
  unfold streamOf at hp ⊢
  rw [List.append_assoc] at hp
  have hI0 := inv_init d0
  -- the pulses
  obtain ⟨s1, r1, a1, a2, a3⟩ := run_pulses pin ps hI0 (by show 0 < 85; omega) (Or.inl rfl)
    hgap hdur (reads_append_left hp) (by show 0 + _ ≤ _; omega)
  obtain ⟨hI1, hs1⟩ := run_cont_inv pin _ hI0 r1
  have hs1' : s1.samples = 0 + (pulseSamples ps).length := hs1
  -- the LOW samples that follow
  have hp2 := reads_append_right hp
  rw [← hs1'] at hp2
  obtain ⟨s2, r2, b1, b2, b3⟩ := run_gap pin tail hI1 a1 (fun _ => htail)
    (reads_replicate (reads_append_left hp2)) (by rw [a3]; show 0 + _ + _ ≤ _; omega)
  obtain ⟨hI2, hs2⟩ := run_cont_inv pin _ hI1 r2
  -- the line stays HIGH
  have hp3 := reads_append_right hp2
  rw [List.length_replicate, ← hs2] at hp3
  have hhigh := reads_replicate hp3
  have r3 := run_high_seg pin 199 hI2 (fun j hj => hhigh j (by omega)) (by omega)
  obtain ⟨hI3, hs3⟩ := run_cont_inv pin _ hI2 r3
  have r4 :
      run pin 1 { s2 with samples := s2.samples + 199, signal_length := s2.signal_length + 199 } =
      .ret { s2 with samples := s2.samples + 199 + 1
                     signal_length := s2.signal_length + 199 + 1 } .stuckHigh := by
    simp only [run]
    rw [show pin (s2.samples + 199) = true from hhigh 199 (by omega), sample_high hI3,
      if_neg (by show ¬ s2.signal_length + 199 + 1 < 200; omega)]
    rfl
  have hrun := run_cont_of_add pin r1 (run_cont_of_add pin r2 (run_cont_of_add pin r3 r4))
  have hseen : seen (RState.init d0) = [] := rfl
  rw [hseen, List.nil_append] at a2
  refine ⟨_, readData_eq_of_run pin d0 hrun, ?_, ?_, ?_, ?_⟩
  · show s2.pulses = _; rw [b2, a2]
  · show s2.stores = _; rw [hI2.st, b2, a2]
  · show s2.data = _; rw [hI2.dat, hI2.st, b2, a2]
  · show s2.samples + 199 + 1 = _
    rw [hs2, hs1', List.length_append, List.length_replicate]; omega

/-! ## Claims: classification, checksum, conversion -/

/-- C1. Bit classification in `readData`: when a LOW sample ends a HIGH pulse
of `d` ticks (`1 ≤ d`; `d < 200` holds of every pulse that is ended), at any
point of any run, handshake pulses included, the pulse block shifts a 0 bit
into `val` when `d < 30`, shifts a 1 bit into `val` when `30 ≤ d < 85`, and
for `85 ≤ d` `readData` returns `-1` on that very sample, `data` and the list
of stores being those before the sample. -/
theorem classify_pulse (pin : Nat → Bool) (d0 : List Nat) (t : Nat) (s : RState)
    (hrun : run pin t (RState.init d0) = .cont s) (hlow : pin t = false)
    (hd : 1 ≤ s.signal_length) :
    s.signal_length < 200 ∧
    (s.signal_length < 30 →
      ∃ s1, pulseBlock s.tick = some s1 ∧ s1.val = 2 * s.val ∧
        s1.val_counter = s.val_counter + 1) ∧
    (30 ≤ s.signal_length → s.signal_length < 85 →
      ∃ s1, pulseBlock s.tick = some s1 ∧ s1.val = 2 * s.val + 1 ∧
        s1.val_counter = s.val_counter + 1) ∧
    (85 ≤ s.signal_length →
      pulseBlock s.tick = none ∧
      ∃ s', readData pin d0 = .ret s' .unclassifiable ∧
        (readData pin d0).result = some (-1) ∧ s'.samples = t + 1 ∧
        s'.data = s.data ∧ s'.stores = s.stores) := by
  obtain ⟨hI, hs⟩ := run_cont_inv pin t (inv_init d0) hrun
  have hs' : s.samples = t := by rw [hs]; exact Nat.zero_add t
  have hv := inv_val_lt_128 hI
  have hvc := vcOf_lt s.pulses.length
  rw [← hI.vc] at hvc
  have hlc : s.loop_counter < 65535 := by
    have h1 := hI.wd; have h2 := hI.wdle; rw [hI.lc]; unfold WATCHDOG_THRESHOLD at h2; omega
  have hcl : s.signal_length < 85 → pulseBlock s.tick = some s.tick.classified := fun h85 =>
    pulseBlock_classified s.tick (by show 0 < s.signal_length; omega) h85 hlc
      (by show s.val < 32768; omega) (by show s.val_counter < 65535; omega)
  refine ⟨hI.sl, ?_, ?_, ?_⟩
  · intro h30
    refine ⟨_, hcl (by omega), ?_, rfl⟩
    show 2 * s.val + (if s.signal_length < 30 then 0 else 1) = 2 * s.val
    rw [if_pos h30]; rfl
  · intro h30 h85
    refine ⟨_, hcl h85, ?_, rfl⟩
    show 2 * s.val + (if s.signal_length < 30 then 0 else 1) = 2 * s.val + 1
    rw [if_neg (by omega)]
  · intro h85
    have hstep : run pin 1 s =
        .ret { s.tick with loop_counter := u16 (s.loop_counter + 1) } .unclassifiable := by
      simp only [run]
      rw [hs', hlow, sample_low_unclassifiable s h85]
    have hfin := readData_eq_of_run pin d0 (run_cont_of_add pin hrun hstep)
    refine ⟨pulseBlock_unclassifiable s.tick h85, _, hfin, ?_, ?_, rfl, rfl⟩
    · rw [hfin]; rfl
    · show s.samples + 1 = t + 1; rw [hs']

/-- Witness of C1: the third pulse of a stream, of 40 ticks, shifts a 1 bit
into the empty accumulator. -/
theorem classify_pulse_witness :
    ∃ s1, pulseBlock ({ RState.init zeroFrame with
        signal_length := 40, loop_counter := 2, watchdog := 2, samples := 52,
        pulses := [5, 5] } : RState).tick = some s1 ∧ s1.val = 1 ∧ s1.val_counter = 1 :=
  (classify_pulse (pinOf (streamOf [(0, 5), (1, 5), (1, 40)] 1)) zeroFrame 52
    { RState.init zeroFrame with
        signal_length := 40, loop_counter := 2, watchdog := 2, samples := 52,
        pulses := [5, 5] } (by decide) (by decide) (by decide)).2.2.1 (by decide) (by decide)

theorem checksum_eq_mod (data : List Nat) :
    checksum data = (data.getD 0 0 + data.getD 1 0 + data.getD 2 0 + data.getD 3 0) % 256 := by
  unfold checksum
  exact Nat.and_pow_two_sub_one_eq_mod _ 8

theorem accepted_iff (data : List Nat) :
    accepted data = true ↔
      (data.getD 0 0 + data.getD 1 0 + data.getD 2 0 + data.getD 3 0) % 256 = data.getD 4 0 ∧
      (data.getD 0 0 + data.getD 1 0 + data.getD 2 0 + data.getD 3 0) % 256 ≠ 0 := by
  unfold accepted
  rw [checksum_eq_mod]
  simp only [Bool.and_eq_true, beq_iff_eq, bne_iff_ne, ne_eq]
  constructor
  · rintro ⟨h1, h2⟩; exact ⟨h1.symm, h2⟩
  · rintro ⟨h1, h2⟩; exact ⟨h1.symm, h2⟩

/-- C3. Checksum acceptance: the test of line 158 accepts a frame exactly when
`(data[0] + data[1] + data[2] + data[3]) mod 256` equals `data[4]` and is not
0; a payload followed by its non-zero checksum is accepted; the all-zero
frame is rejected although its checksum matches. -/
theorem checksum_acceptance :
    (∀ a b c d e : Nat, accepted [a, b, c, d, e] = true ↔
      ((a + b + c + d) % 256 = e ∧ (a + b + c + d) % 256 ≠ 0)) ∧
    (∀ a b c d : Nat, (a + b + c + d) % 256 ≠ 0 →
      accepted [a, b, c, d, (a + b + c + d) % 256] = true) ∧
    (checksum zeroFrame = zeroFrame.getD 4 0 ∧ accepted zeroFrame = false) := by
  refine ⟨fun a b c d e => accepted_iff [a, b, c, d, e], ?_, by decide⟩
  intro a b c d h
  exact (accepted_iff [a, b, c, d, (a + b + c + d) % 256]).mpr ⟨rfl, h⟩

theorem retryLoop_accept (w : World) (signal n i : Nat) (data : List Nat) (tr : List Event)
    (h : accepted (attemptData w signal i data) = true) :
    retryLoop w signal (n + 1) i data tr =
      (true, attemptData w signal i data,
        tr ++ handshakeCycle signal ++
          [.toJson (celsius (attemptData w signal i data))
            (humidity (attemptData w signal i data)) NO_ERROR]) := by
  simp only [retryLoop, h, if_true]

theorem retryLoop_reject (w : World) (signal n i : Nat) (data : List Nat) (tr : List Event)
    (h : accepted (attemptData w signal i data) = false) :
    retryLoop w signal (n + 1) i data tr =
      retryLoop w signal n (i + 1) (resetData (attemptData w signal i data))
        (tr ++ handshakeCycle signal ++ [.delay 2000]) := by
  simp only [retryLoop, h, Bool.false_eq_true, if_false]

/-- C4. Reading conversion, over exact tenths: ten times the humidity is
`data[0] * 256 + data[1]`; the temperature is `data[3] / 10`, negated when
`data[2]` is `0x80` and not negated (so non-negative) for any other
`data[2]`; an attempt whose frame is accepted reports exactly these two
values with the empty error. The frame `[0x01,0x90,0x80,0x15,0x26]` gives
40.0 and -2.1, the frame `[0x01,0x90,0x00,0x15,0xA6]` gives +2.1, and so does
`data[2] = 0x81`. -/
theorem reading_conversion :
    (∀ data : List Nat,
      10 * humidity data = ((data.getD 0 0 * 256 + data.getD 1 0 : Nat) : ℚ) ∧
      (data.getD 2 0 = 0x80 → celsius data = -((data.getD 3 0 : ℚ) / 10)) ∧
      (data.getD 2 0 ≠ 0x80 →
        celsius data = (data.getD 3 0 : ℚ) / 10 ∧ 0 ≤ celsius data) ∧
      10 * |celsius data| = (data.getD 3 0 : ℚ)) ∧
    (∀ (w : World) (signal n i : Nat) (data : List Nat) (tr : List Event),
      accepted (attemptData w signal i data) = true →
      (retryLoop w signal (n + 1) i data tr).2.2 =
        tr ++ handshakeCycle signal ++
          [.toJson (celsius (attemptData w signal i data))
            (humidity (attemptData w signal i data)) NO_ERROR]) ∧
    (accepted [0x01, 0x90, 0x80, 0x15, 0x26] = true ∧
      humidity [0x01, 0x90, 0x80, 0x15, 0x26] = 40 ∧
      celsius [0x01, 0x90, 0x80, 0x15, 0x26] = -(21 / 10)) ∧
    (accepted [0x01, 0x90, 0x00, 0x15, 0xA6] = true ∧
      celsius [0x01, 0x90, 0x00, 0x15, 0xA6] = 21 / 10) ∧
    celsius [0x01, 0x90, 0x81, 0x15, 0x27] = 21 / 10 := by
  refine ⟨?_, ?_, ?_, ?_, ?_⟩
  · intro data
    have h3 : (0 : ℚ) ≤ (data.getD 3 0 : ℚ) / 10 := by positivity
    refine ⟨?_, ?_, ?_, ?_⟩
    · unfold humidity; field_simp
    · intro h; unfold celsius; simp only [h, if_true]; ring
    · intro h; unfold celsius; simp only [h, if_false]; exact ⟨trivial, h3⟩
    · unfold celsius
      by_cases h : data.getD 2 0 = 0x80
      · simp only [h, if_true]
        rw [mul_neg_one, abs_neg, abs_of_nonneg h3]; field_simp
      · simp only [h, if_false]
        rw [abs_of_nonneg h3]; field_simp
  · intro w signal n i data tr h
    rw [retryLoop_accept w signal n i data tr h]
  · refine ⟨by decide, ?_, ?_⟩
    · unfold humidity; norm_num
    · unfold celsius; norm_num
  · refine ⟨by decide, ?_⟩
    unfold celsius; norm_num
  · unfold celsius; norm_num

/-! ## Claims: frame assembly -/

theorem byteOf_eq_sum (l : List Nat) (h : l.length = 8) :
    byteOf l = ∑ j in Finset.range 8, bitOf (l.getD j 0) * 2 ^ (7 - j) := by
  match l, h with
  | [a, b, c, d, e, f, g, x], _ =>
    simp [byteOf, Finset.sum_range_succ]
    ring

theorem getD_take_drop (ds : List Nat) (m j : Nat) (hj : j < 8) :
    ((ds.drop m).take 8).getD j 0 = ds.getD (m + j) 0 := by
  simp [List.getElem?_take, hj]

/-- Frame left by 42 classified pulses on the all-zero frame. -/
theorem frame_of_42 (ds : List Nat) (h : ds.length = 42) :
    applyStores zeroFrame (storesOf ds) =
      [byteOf ((ds.drop 2).take 8), byteOf ((ds.drop 10).take 8),
       byteOf ((ds.drop 18).take 8), byteOf ((ds.drop 26).take 8),
       byteOf ((ds.drop 34).take 8)] := by
  unfold storesOf
  rw [h]
  simp [List.range_succ, applyStores, writeData, zeroFrame]

theorem reads_of_pinOf (pin : Nat → Bool) (l : List Bool)
    (h : ∀ t, t < l.length + 200 → pin t = pinOf l t) :
    Reads pin 0 (l ++ List.replicate 200 true) := by
  intro j hj
  rw [List.length_append, List.length_replicate] at hj
  rw [Nat.zero_add, h j hj]
  unfold pinOf
  by_cases hl : j < l.length
  · rw [List.getD_append _ _ _ _ hl]
  · rw [List.getD_append_right _ _ _ _ (by omega), List.getD_eq_default _ _ (by omega)]
    rw [List.getD_eq_getElem _ _ (by rw [List.length_replicate]; omega)]
    exact (List.getElem_replicate _ _).symm

/-- A LOW sample closes the pulse in progress, whether the `for` loop goes on
or ends with it. -/
theorem sample_low_seen_any {d0 : List Nat} {s : RState} (hI : Inv d0 s)
    (h85 : s.signal_length < 85) :
    ∃ x : RState, x.pulses = seen s ∧ x.signal_length = 0 ∧
      sample s false =
        if s.watchdog + 1 ≤ WATCHDOG_THRESHOLD then .cont x else .ret x .watchdog := by
  by_cases h0 : s.signal_length = 0
  · refine ⟨{ s.tick with watchdog := s.watchdog + 1 }, ?_, h0, sample_low_idle hI h0⟩
    unfold seen; rw [if_pos h0, List.append_nil]; rfl
  · obtain ⟨_, a2, a3, _⟩ := afterPulse_spec hI
    refine ⟨{ storeByte (handshakeReset s.tick.classified) with watchdog := s.watchdog + 1 },
      ?_, a3, sample_low_pulse hI (by omega) h85⟩
    unfold seen; rw [if_neg h0]; exact a2

/-- LOW samples with no pulse in progress leave the classified pulses as they
are, whether `readData` goes on or returns. -/
theorem run_low_pulses {d0 : List Nat} (pin : Nat → Bool) (k : Nat) {s : RState}
    (hI : Inv d0 s) (h0 : s.signal_length = 0)
    (hp : ∀ j, j < k → pin (s.samples + j) = false) :
    (run pin k s).state.pulses = s.pulses ∧
    ∀ s', run pin k s = .cont s' → s'.signal_length = 0 := by
  induction k generalizing s with
  | zero =>
    refine ⟨rfl, ?_⟩
    intro s' h
    simp only [run] at h
    injection h with h
    rw [← h]; exact h0
  | succ k ih =>
    have hs := sample_low_idle hI h0
    simp only [run]
    rw [show pin s.samples = false from hp 0 (by omega), hs]
    by_cases hw : s.watchdog + 1 ≤ WATCHDOG_THRESHOLD
    · rw [if_pos hw] at hs ⊢
      have hI1 := (sample_cont_inv hI hs).1
      exact ih hI1 h0 (fun j hj => by
        have := hp (j + 1) (by omega)
        show pin (s.samples + 1 + j) = false
        rw [Nat.add_assoc, Nat.add_comm 1 j]; exact this)
    · rw [if_neg hw]
      refine ⟨rfl, ?_⟩
      intro s' h
      cases h

/-- LOW samples, then the line HIGH for 200 samples, from a point with no
pulse in progress: `readData` returns within them, with the classified pulses
it had. -/
theorem run_tail_returns {d0 : List Nat} (pin : Nat → Bool) (k : Nat) {s : RState}
    (hI : Inv d0 s) (h0 : s.signal_length = 0)
    (hlow : ∀ j, j < k → pin (s.samples + j) = false)
    (hhigh : ∀ j, j < 200 → pin (s.samples + k + j) = true) :
    ∃ s' e, run pin (k + 200) s = .ret s' e ∧ s'.pulses = s.pulses := by
  obtain ⟨hpl, hsl⟩ := run_low_pulses pin k hI h0 hlow
  cases h : run pin k s with
  | ret s1 e =>
    rw [h] at hpl
    exact ⟨s1, e, run_ret_mono pin h (by omega), hpl⟩
  | cont s1 =>
    rw [h] at hpl
    have hpl' : s1.pulses = s.pulses := hpl
    obtain ⟨hI1, hs1⟩ := run_cont_inv pin k hI h
    have h01 := hsl s1 h
    have r3 := run_high_seg pin 199 hI1
      (fun j hj => by rw [hs1]; exact hhigh j (by omega)) (by omega)
    obtain ⟨hI3, _⟩ := run_cont_inv pin _ hI1 r3
    have r4 :
        run pin 1 { s1 with samples := s1.samples + 199
                            signal_length := s1.signal_length + 199 } =
        .ret { s1 with samples := s1.samples + 199 + 1
                       signal_length := s1.signal_length + 199 + 1 } .stuckHigh := by
      simp only [run]
      rw [show pin (s1.samples + 199) = true by rw [hs1]; exact hhigh 199 (by omega),
        sample_high hI3, if_neg (by show ¬ s1.signal_length + 199 + 1 < 200; omega)]
      rfl
    exact ⟨_, _, run_cont_of_add pin h (run_cont_of_add pin r3 r4), hpl'⟩

/-- A stream of classifiable pulses whose gaps fit the watchdog budget, at
least one LOW sample after the last pulse, then the line HIGH for 200
samples: `readData` returns having classified exactly these pulses, however
many LOW samples follow the last pulse. -/
theorem readData_pulses_gaps (d0 : List Nat) (pin : Nat → Bool) (ps : List (Nat × Nat))
    (tail : Nat) (hgap : ∀ p ∈ ps.tail, 1 ≤ p.1) (hdur : ∀ p ∈ ps, 1 ≤ p.2 ∧ p.2 ≤ 84)
    (htail : 1 ≤ tail) (hw : (ps.map Prod.fst).sum ≤ WATCHDOG_THRESHOLD)
    (hp : Reads pin 0 (streamOf ps tail ++ List.replicate 200 true)) :
    (readData pin d0).state.pulses = ps.map Prod.snd ∧
    (readData pin d0).state.data = applyStores d0 (storesOf (ps.map Prod.snd)) := by
  have hpulses : (readData pin d0).state.pulses = ps.map Prod.snd := by
    unfold streamOf at hp
    rw [List.append_assoc] at hp
    have hI0 := inv_init d0
    obtain ⟨s1, r1, a1, a2, a3⟩ := run_pulses pin ps hI0 (by show 0 < 85; omega) (Or.inl rfl)
      hgap hdur (reads_append_left hp) (by show 0 + _ ≤ _; omega)
    obtain ⟨hI1, hs1⟩ := run_cont_inv pin _ hI0 r1
    have hs1' : s1.samples = 0 + (pulseSamples ps).length := hs1
    have hseen : seen (RState.init d0) = [] := rfl
    rw [hseen, List.nil_append] at a2
    have hp2 := reads_append_right hp
    rw [← hs1'] at hp2
    have hlow := reads_replicate (reads_append_left hp2)
    have hhigh := reads_replicate (reads_append_right hp2)
    rw [List.length_replicate] at hhigh
    -- the LOW sample that ends the last pulse
    obtain ⟨x, x1, x2, hx⟩ := sample_low_seen_any hI1 a1
    have hpin0 : pin s1.samples = false := by
      have := hlow 0 (by omega)
      rw [Nat.add_zero] at this; exact this
    by_cases hw1 : s1.watchdog + 1 ≤ WATCHDOG_THRESHOLD
    · rw [if_pos hw1] at hx
      obtain ⟨hIx, hsx⟩ := sample_cont_inv hI1 hx
      have r2 : run pin 1 s1 = .cont x := by
        simp only [run]; rw [hpin0, hx]
      obtain ⟨s3, e, r3, h3⟩ := run_tail_returns pin (tail - 1) hIx x2
        (fun j hj => by
          have := hlow (1 + j) (by omega)
          rw [hsx, Nat.add_assoc]; exact this)
        (fun j hj => by
          have := hhigh j hj
          rw [hsx, show s1.samples + 1 + (tail - 1) + j = s1.samples + tail + j by omega]
          exact this)
      rw [readData_eq_of_run pin d0 (run_cont_of_add pin r1 (run_cont_of_add pin r2 r3))]
      show s3.pulses = _
      rw [h3, x1, a2]
    · rw [if_neg hw1] at hx
      have r2 : run pin 1 s1 = .ret x .watchdog := by
        simp only [run]; rw [hpin0, hx]
      rw [readData_eq_of_run pin d0 (run_cont_of_add pin r1 r2)]
      show x.pulses = _
      rw [x1, a2]
  refine ⟨hpulses, ?_⟩
  obtain ⟨sF, e, hF, hInv⟩ := readData_returns pin d0
  rw [hF] at hpulses ⊢
  show sF.data = _
  rw [hInv.dat, hInv.st, show sF.pulses = _ from hpulses]

/-- C2 (amended). Frame assembly: a stream of exactly 42 HIGH pulses, each of
1..84 ticks, separated by at least one LOW sample and followed by at least
one LOW sample, with at most `WATCHDOG_THRESHOLD` LOW samples before its last
pulse (any number after it), then HIGH for 200 samples: from the all-zero
frame `readData` leaves
`data[i] = Σ j < 8, bit (pulse 8 i + j + 3) * 2 ^ (7 - j)` for `i` in `0..4`
(pulses numbered from 1, so the list index is `8 i + j + 2`). -/
theorem frame_assembly (ps : List (Nat × Nat)) (tail : Nat) (pin : Nat → Bool)
    (hlen : ps.length = 42)
    (hdur : ∀ p ∈ ps, 1 ≤ p.2 ∧ p.2 ≤ 84)
    (hgap : ∀ p ∈ ps.tail, 1 ≤ p.1) (htail : 1 ≤ tail)
    (hbudget : (ps.map Prod.fst).sum ≤ WATCHDOG_THRESHOLD)
    (hpin : ∀ t, t < (streamOf ps tail).length + 200 → pin t = pinOf (streamOf ps tail) t) :
    ∀ i, i < 5 →
      (readData pin zeroFrame).state.data.getD i 0 =
        ∑ j in Finset.range 8, bitOf ((ps.getD (8 * i + j + 2) (0, 0)).2) * 2 ^ (7 - j) := by
  obtain ⟨_, hdata⟩ := readData_pulses_gaps zeroFrame pin ps tail hgap hdur htail
    hbudget (reads_of_pinOf pin _ hpin)
  have hl : (ps.map Prod.snd).length = 42 := by rw [List.length_map]; exact hlen
  rw [frame_of_42 _ hl] at hdata
  have hbyte : ∀ m, m + 8 ≤ 42 → byteOf (((ps.map Prod.snd).drop m).take 8) =
      ∑ j in Finset.range 8, bitOf ((ps.getD (m + j) (0, 0)).2) * 2 ^ (7 - j) := by
    intro m hm
    rw [byteOf_eq_sum _ (by rw [List.length_take, List.length_drop, hl]; omega)]
    apply Finset.sum_congr rfl
    intro j hj
    rw [getD_take_drop _ _ _ (Finset.mem_range.mp hj)]
    have : (ps.map Prod.snd).getD (m + j) 0 = (ps.getD (m + j) (0, 0)).2 :=
      List.getD_map ps (0, 0) Prod.snd
    rw [this]
  have hidx : ∀ i j : Nat, 8 * i + j + 2 = (8 * i + 2) + j := fun i j => by omega
  intro i hi
  rw [hdata]
  simp only [hidx]
  interval_cases i
  · exact hbyte 2 (by omega)
  · exact hbyte 10 (by omega)
  · exact hbyte 18 (by omega)
  · exact hbyte 26 (by omega)
  · exact hbyte 34 (by omega)

/-- Witness of C2: the pulses sending `0x01, 0x90, 0x80, 0x15, 0x26` leave
exactly that frame, with one LOW sample after the last pulse, and also with
50001 of them (the `for` loop then ends before the line goes HIGH). -/
theorem frame_assembly_witness :
    ((readData (pinOf (streamOf framePulses 1)) zeroFrame).state.data.getD 0 0 = 0x01 ∧
     (readData (pinOf (streamOf framePulses 1)) zeroFrame).state.data.getD 1 0 = 0x90 ∧
     (readData (pinOf (streamOf framePulses 1)) zeroFrame).state.data.getD 2 0 = 0x80 ∧
     (readData (pinOf (streamOf framePulses 1)) zeroFrame).state.data.getD 3 0 = 0x15 ∧
     (readData (pinOf (streamOf framePulses 1)) zeroFrame).state.data.getD 4 0 = 0x26) ∧
    ((readData (pinOf (streamOf framePulses 50001)) zeroFrame).state.data.getD 0 0 = 0x01 ∧
     (readData (pinOf (streamOf framePulses 50001)) zeroFrame).state.data.getD 1 0 = 0x90 ∧
     (readData (pinOf (streamOf framePulses 50001)) zeroFrame).state.data.getD 2 0 = 0x80 ∧
     (readData (pinOf (streamOf framePulses 50001)) zeroFrame).state.data.getD 3 0 = 0x15 ∧
     (readData (pinOf (streamOf framePulses 50001)) zeroFrame).state.data.getD 4 0 = 0x26) := by
  have h := frame_assembly framePulses 1 (pinOf (streamOf framePulses 1)) (by decide)
    (by decide) (by decide) (by decide) (by decide) (fun _ _ => rfl)
  have h' := frame_assembly framePulses 50001 (pinOf (streamOf framePulses 50001))
    (by decide) (by decide) (by decide) (by decide) (by decide) (fun _ _ => rfl)
  refine ⟨⟨?_, ?_, ?_, ?_, ?_⟩, ⟨?_, ?_, ?_, ?_, ?_⟩⟩
  · rw [h 0 (by decide)]; decide
  · rw [h 1 (by decide)]; decide
  · rw [h 2 (by decide)]; decide
  · rw [h 3 (by decide)]; decide
  · rw [h 4 (by decide)]; decide
  · rw [h' 0 (by decide)]; decide
  · rw [h' 1 (by decide)]; decide
  · rw [h' 2 (by decide)]; decide
  · rw [h' 3 (by decide)]; decide
  · rw [h' 4 (by decide)]; decide

/-- LOW samples up to the end of the watchdog budget: `readData` returns on
the last one. -/
theorem run_low_ret {d0 : List Nat} (pin : Nat → Bool) (k : Nat) {s : RState}
    (hI : Inv d0 s) (h0 : s.signal_length = 0)
    (hp : ∀ j, j < k + 1 → pin (s.samples + j) = false)
    (hk : s.watchdog + k = WATCHDOG_THRESHOLD) :
    run pin (k + 1) s =
      .ret { s with samples := s.samples + k + 1, watchdog := s.watchdog + k + 1 }
        .watchdog := by
  have r1 := run_low_seg pin k hI h0 (fun j hj => hp j (by omega)) (by omega)
  obtain ⟨hI1, _⟩ := run_cont_inv pin _ hI r1
  refine run_cont_of_add pin r1 ?_
  simp only [run]
  rw [show pin (s.samples + k) = false from hp k (by omega), sample_low_idle hI1 h0,
    if_neg (by show ¬ s.watchdog + k + 1 ≤ WATCHDOG_THRESHOLD; omega)]
  rfl

/-- On a pin LOW for the first `WATCHDOG_THRESHOLD + 1` samples `readData`
runs out of iterations without a pulse, one sample an iteration. -/
theorem readData_low (pin : Nat → Bool) (d0 : List Nat)
    (h : ∀ j, j < WATCHDOG_THRESHOLD + 1 → pin j = false) :
    ∃ s, readData pin d0 = .ret s .watchdog ∧ s.data = d0 ∧ s.stores = [] ∧ s.pulses = [] ∧
      s.samples = WATCHDOG_THRESHOLD + 1 ∧ s.watchdog = WATCHDOG_THRESHOLD + 1 := by
  have r := run_low_ret pin WATCHDOG_THRESHOLD (inv_init d0) rfl
    (fun j hj => by
      rw [show (RState.init d0).samples + j = j from Nat.zero_add j]
      exact h j hj)
    (Nat.zero_add _)
  refine ⟨_, readData_eq_of_run pin d0 r, rfl, rfl, rfl, ?_, ?_⟩
  · show 0 + WATCHDOG_THRESHOLD + 1 = _
    rw [Nat.zero_add]
  · show 0 + WATCHDOG_THRESHOLD + 1 = _
    rw [Nat.zero_add]

theorem reads_pinOf (l : List Bool) : Reads (pinOf l) 0 l := by
  intro j _
  rw [Nat.zero_add]; rfl

/-- One pulse, then LOW to the end of the watchdog budget: `readData` runs
out of iterations with that one pulse classified and the frame untouched. -/
theorem readData_pulse_then_low (pin : Nat → Bool) (d0 : List Nat) (d : Nat)
    (hd : 1 ≤ d ∧ d ≤ 84)
    (hp : Reads pin 0
      (List.replicate d true ++ List.replicate (WATCHDOG_THRESHOLD + 1) false)) :
    ∃ s, readData pin d0 = .ret s .watchdog ∧ s.data = d0 ∧ s.pulses = [d] := by
  have hW : 1 ≤ WATCHDOG_THRESHOLD := by unfold WATCHDOG_THRESHOLD; omega
  have hI0 := inv_init d0
  have hhigh := reads_replicate (reads_append_left hp)
  have hlow := reads_replicate (reads_append_right hp)
  rw [List.length_replicate] at hlow
  -- the pulse
  have r1 := run_high_seg pin d hI0
    (fun j hj => by
      rw [show (RState.init d0).samples = 0 from rfl]; exact hhigh j hj)
    (by rw [show (RState.init d0).signal_length = 0 from rfl]; omega)
  obtain ⟨hI1, _⟩ := run_cont_inv pin d hI0 r1
  -- the LOW sample that ends it
  obtain ⟨s1, e1, b1, b2, b3⟩ := sample_low_seen hI1
    (by show (RState.init d0).signal_length + d < 85
        rw [show (RState.init d0).signal_length = 0 from rfl]; omega)
    (by show (RState.init d0).watchdog + 1 ≤ WATCHDOG_THRESHOLD
        rw [show (RState.init d0).watchdog = 0 from rfl]; omega)
  have r2 : run pin 1 { RState.init d0 with
      samples := (RState.init d0).samples + d
      signal_length := (RState.init d0).signal_length + d } = .cont s1 := by
    simp only [run]
    rw [show pin ((RState.init d0).samples + d) = false by
      rw [show (RState.init d0).samples = 0 from rfl]
      have := hlow 0 (by omega)
      rw [Nat.add_zero] at this; exact this]
    rw [e1]
  obtain ⟨hI2, hs2⟩ := sample_cont_inv hI1 e1
  have hs2' : s1.samples = 0 + d + 1 := hs2
  have b3' : s1.watchdog = 1 := by
    rw [b3]; show (RState.init d0).watchdog + 1 = 1
    rw [show (RState.init d0).watchdog = 0 from rfl]
  -- LOW to the end of the budget
  have r3 := run_low_ret pin (WATCHDOG_THRESHOLD - 1) hI2 b1
    (fun j hj => by
      rw [hs2']
      have := hlow (1 + j) (by omega)
      rw [show 0 + d + 1 + j = 0 + d + (1 + j) by omega]; exact this)
    (by rw [b3']; omega)
  have hrun := run_cont_of_add pin r1 (run_cont_of_add pin r2 r3)
  have hpulses : s1.pulses = [d] := by
    rw [b2]; unfold seen
    rw [if_neg (by show ¬ (RState.init d0).signal_length + d = 0
                   rw [show (RState.init d0).signal_length = 0 from rfl]; omega)]
    show [] ++ [(RState.init d0).signal_length + d] = [d]
    rw [show (RState.init d0).signal_length = 0 from rfl, Nat.zero_add]; rfl
  refine ⟨_, readData_eq_of_run pin d0 hrun, ?_, hpulses⟩
  show s1.data = d0
  rw [hI2.dat, hI2.st, hpulses]
  simp [storesOf, applyStores]

theorem streamOf_late :
    streamOf latePulses 1 =
      (List.replicate 5 true ++ List.replicate (WATCHDOG_THRESHOLD + 1) false) ++
        (List.replicate 5 true ++ (pulseSamples (List.replicate 40 (1, 40)) ++
          List.replicate 1 false)) := by
  unfold streamOf latePulses
  simp only [pulseSamples, List.replicate_zero, List.nil_append, List.append_assoc]
  rfl

/-- Counterexample to C2 as stated: 42 pulses of 1..84 ticks, separated by
LOW samples, 50001 of them between the first pulse and the second; every
data bit is 1, so the claim gives `data[0] = 255`, and `readData` leaves
`data[0] = 0`. -/
theorem frame_assembly_late :
    latePulses.length = 42 ∧ (∀ p ∈ latePulses, 1 ≤ p.2 ∧ p.2 ≤ 84) ∧
    (∀ p ∈ latePulses.tail, 1 ≤ p.1) ∧
    (readData (pinOf (streamOf latePulses 1)) zeroFrame).state.data.getD 0 0 = 0 ∧
    (∑ j in Finset.range 8,
      bitOf ((latePulses.getD (8 * 0 + j + 2) (0, 0)).2) * 2 ^ (7 - j)) = 255 ∧
    ¬ (∀ i, i < 5 →
      (readData (pinOf (streamOf latePulses 1)) zeroFrame).state.data.getD i 0 =
        ∑ j in Finset.range 8,
          bitOf ((latePulses.getD (8 * i + j + 2) (0, 0)).2) * 2 ^ (7 - j)) := by
  have hreads : Reads (pinOf (streamOf latePulses 1)) 0
      (List.replicate 5 true ++ List.replicate (WATCHDOG_THRESHOLD + 1) false) := by
    have := reads_pinOf (streamOf latePulses 1)
    rw [streamOf_late] at this
    rw [streamOf_late]
    exact reads_append_left this
  obtain ⟨s, hr, hdata, _⟩ := readData_pulse_then_low (pinOf (streamOf latePulses 1))
    zeroFrame 5 (by decide) hreads
  have h0 : (readData (pinOf (streamOf latePulses 1)) zeroFrame).state.data.getD 0 0 = 0 := by
    rw [hr]; show s.data.getD 0 0 = 0; rw [hdata]; rfl
  have h255 : (∑ j in Finset.range 8,
      bitOf ((latePulses.getD (8 * 0 + j + 2) (0, 0)).2) * 2 ^ (7 - j)) = 255 := by decide
  refine ⟨by decide, by decide, by decide, h0, h255, ?_⟩
  intro h
  have := h 0 (by decide)
  rw [h0, h255] at this
  exact absurd this (by decide)

theorem mem_storesOf {ps : List Nat} {p : Int × Nat} (h : p ∈ storesOf ps) :
    ∃ k : Nat, 8 * k + 10 ≤ ps.length ∧ p.1 = (k : Int) ∧
      p.2 = byteOf ((ps.drop (8 * k + 2)).take 8) := by
  unfold storesOf at h
  obtain ⟨k, hk, rfl⟩ := List.mem_map.mp h
  have hk' : k < (ps.length - 2) / 8 := List.mem_range.mp hk
  exact ⟨k, by omega, rfl, rfl⟩

theorem byteOf_window (ps : List Nat) (m : Nat) (h : m + 8 ≤ ps.length) :
    byteOf ((ps.drop m).take 8) =
      ∑ j in Finset.range 8, bitOf (ps.getD (j + m) 0) * 2 ^ (7 - j) := by
  rw [byteOf_eq_sum _ (by rw [List.length_take, List.length_drop]; omega)]
  apply Finset.sum_congr rfl
  intro j hj
  rw [getD_take_drop _ _ _ (Finset.mem_range.mp hj), Nat.add_comm]

/-- The state of a run, returned or not, has the stores of its pulses. -/
theorem run_stores {d0 : List Nat} (pin : Nat → Bool) (t : Nat) :
    (run pin t (RState.init d0)).state.stores =
        storesOf (run pin t (RState.init d0)).state.pulses ∧
    (run pin t (RState.init d0)).state.data =
        applyStores d0 (storesOf (run pin t (RState.init d0)).state.pulses) := by
  cases h : run pin t (RState.init d0) with
  | cont s =>
    have hI := (run_cont_inv pin t (inv_init d0) h).1
    exact ⟨hI.st, by show s.data = _; rw [hI.dat, hI.st]; rfl⟩
  | ret s e =>
    have hF := run_ret_inv pin t (inv_init d0) h
    exact ⟨hF.st, by show s.data = _; rw [hF.dat, hF.st]; rfl⟩

/-- C5. Handshake discard: in every run, while fewer than three pulses are
complete (so after each of the first two) `val` and `val_counter` are 0; and
at every point of the run, `readData` returned or not, every store made at
index 0 holds the number whose bits, most significant first, are those of
pulses 3 to 10 (list indices 2 to 9): the first two pulses take no part. -/
theorem handshake_discard (pin : Nat → Bool) (d0 : List Nat) :
    (∀ t s, run pin t (RState.init d0) = .cont s → s.loop_counter < 3 →
      s.val = 0 ∧ s.val_counter = 0) ∧
    (∀ t v, ((0 : Int), v) ∈ (run pin t (RState.init d0)).state.stores →
      10 ≤ (run pin t (RState.init d0)).state.pulses.length ∧
      v = ∑ j in Finset.range 8,
        bitOf ((run pin t (RState.init d0)).state.pulses.getD (j + 2) 0) * 2 ^ (7 - j)) ∧
    (∀ v, ((0 : Int), v) ∈ (readData pin d0).state.stores →
      10 ≤ (readData pin d0).state.pulses.length ∧
      v = ∑ j in Finset.range 8,
        bitOf ((readData pin d0).state.pulses.getD (j + 2) 0) * 2 ^ (7 - j)) := by
  have key : ∀ t v, ((0 : Int), v) ∈ (run pin t (RState.init d0)).state.stores →
      10 ≤ (run pin t (RState.init d0)).state.pulses.length ∧
      v = ∑ j in Finset.range 8,
        bitOf ((run pin t (RState.init d0)).state.pulses.getD (j + 2) 0) * 2 ^ (7 - j) := by
    intro t v hv
    rw [(run_stores pin t).1] at hv
    obtain ⟨k, hk, h1, h2⟩ := mem_storesOf hv
    have hk0 : k = 0 := by
      have : (0 : Int) = (k : Int) := h1
      omega
    subst hk0
    exact ⟨by omega, by rw [show v = _ from h2]; exact byteOf_window _ 2 (by omega)⟩
  refine ⟨?_, key, fun v hv => key FUEL v hv⟩
  intro t s hrun h3
  have hI := (run_cont_inv pin t (inv_init d0) hrun).1
  have hc : s.val_counter = 0 := by
    rw [hI.vc, vcOf, if_pos (by rw [← hI.lc]; exact h3)]
  exact ⟨by rw [hI.acc, hc, Nat.sub_zero, List.drop_length]; rfl, hc⟩

/-- Witness of C5: on the pulses sending `0x01, 0x90, ...` a store is made at
index 0, and it holds `0x01`. -/
theorem handshake_discard_witness :
    ((0 : Int), 1) ∈ (run (pinOf (streamOf framePulses 1)) 120 (RState.init zeroFrame)).state.stores ∧
    (1 : Nat) = ∑ j in Finset.range 8,
      bitOf ((run (pinOf (streamOf framePulses 1)) 120
        (RState.init zeroFrame)).state.pulses.getD (j + 2) 0) * 2 ^ (7 - j) :=
  ⟨by decide,
   ((handshake_discard (pinOf (streamOf framePulses 1)) zeroFrame).2.1 120 1 (by decide)).2⟩

theorem writeData_getD_ne (d : List Nat) (idx : Int) (v i : Nat) (h : idx ≠ (i : Int)) :
    (writeData d idx v).getD i 0 = d.getD i 0 := by
  unfold writeData
  split
  · rename_i hc
    have hne : idx.toNat ≠ i := by omega
    simp [List.getElem?_set, hne]
  · rfl

theorem applyStores_getD_ne (d : List Nat) (st : List (Int × Nat)) (i : Nat)
    (h : ∀ p ∈ st, p.1 ≠ (i : Int)) : (applyStores d st).getD i 0 = d.getD i 0 := by
  induction st generalizing d with
  | nil => rfl
  | cons p st ih =>
    show (applyStores (writeData d p.1 p.2) st).getD i 0 = _
    rw [ih _ (fun q hq => h q (List.mem_cons_of_mem _ hq)),
      writeData_getD_ne _ _ _ _ (h p (List.mem_cons_self _ _))]

theorem writeData_length (d : List Nat) (idx : Int) (v : Nat) :
    (writeData d idx v).length = d.length := by
  unfold writeData; split
  · exact List.length_set ..
  · rfl

theorem applyStores_length (d : List Nat) (st : List (Int × Nat)) :
    (applyStores d st).length = d.length := by
  induction st generalizing d with
  | nil => rfl
  | cons p st ih =>
    show (applyStores (writeData d p.1 p.2) st).length = _
    rw [ih, writeData_length]

theorem resetData_eq (d : List Nat) (h : d.length = 5) : resetData d = zeroFrame := by
  match d, h with
  | [a, b, c, e, f], _ => rfl

/-- The frame `readData` leaves has the five cells of the frame it found. -/
theorem attemptData_length (w : World) (signal i : Nat) (d : List Nat) :
    (attemptData w signal i d).length = d.length := by
  unfold attemptData readData
  rw [(run_stores _ FUEL).2, applyStores_length]

/-- With fewer than 42 classified pulses `data[4]` is never written. -/
theorem data4_of_lt_42 (pin : Nat → Bool) (d0 : List Nat)
    (h : (readData pin d0).state.pulses.length < 42) :
    (readData pin d0).state.data.getD 4 0 = d0.getD 4 0 := by
  unfold readData at h ⊢
  rw [(run_stores pin FUEL).2]
  apply applyStores_getD_ne
  intro p hp
  obtain ⟨k, hk, h1, _⟩ := mem_storesOf hp
  rw [h1]; omega

/-- C6. Incomplete frames are rejected: an attempt entered with the all-zero
frame in which `readData` returns with fewer than 42 classified pulses
(fewer than 40 data bits, `data[4]` never written) leaves `data[4] = 0`, its
frame fails the test of line 158, and the retry loop emits no record for it:
it resets the frame, pauses and goes to the next iteration. -/
theorem incomplete_frame_rejected (w : World) (signal i : Nat)
    (h : (readData (w.digitalRead i signal) zeroFrame).state.pulses.length < 42) :
    (readData (w.digitalRead i signal) zeroFrame).state.data.getD 4 0 = 0 ∧
    accepted (readData (w.digitalRead i signal) zeroFrame).state.data = false ∧
    ∀ n tr, retryLoop w signal (n + 1) i zeroFrame tr =
      retryLoop w signal n (i + 1) zeroFrame (tr ++ handshakeCycle signal ++ [.delay 2000]) := by
  have h4 := data4_of_lt_42 (w.digitalRead i signal) zeroFrame h
  have h4' : (readData (w.digitalRead i signal) zeroFrame).state.data.getD 4 0 = 0 := h4
  have hrej : accepted (readData (w.digitalRead i signal) zeroFrame).state.data = false := by
    cases hacc : accepted (readData (w.digitalRead i signal) zeroFrame).state.data with
    | false => rfl
    | true =>
      obtain ⟨e1, e2⟩ := (accepted_iff _).mp hacc
      rw [h4'] at e1
      exact absurd e1 e2
  refine ⟨h4', hrej, ?_⟩
  intro n tr
  rw [retryLoop_reject w signal n i zeroFrame tr hrej,
    resetData_eq _ (attemptData_length w signal i zeroFrame)]

/-- Witness of C6: after 41 pulses the bytes `0x01, 0x90, 0x80, 0x15` are
stored in `data[0..3]` and `data[4]` is not written; the frame is rejected. -/
theorem incomplete_frame_rejected_witness :
    (readData (partialWorld.digitalRead 0 7) zeroFrame).state.data =
      [0x01, 0x90, 0x80, 0x15, 0] ∧
    accepted (readData (partialWorld.digitalRead 0 7) zeroFrame).state.data = false := by
  have hpin : partialWorld.digitalRead 0 7 = pinOf (streamOf partialPulses 1) := rfl
  obtain ⟨s, hs, hpulses, _, hdata, _⟩ := readData_of_pulses zeroFrame
    (pinOf (streamOf partialPulses 1)) partialPulses 1 (by decide) (by decide) (by decide)
    (by decide) (reads_of_pinOf _ _ (fun _ _ => rfl))
  have hlt : (readData (partialWorld.digitalRead 0 7) zeroFrame).state.pulses.length < 42 := by
    rw [hpin, hs]
    show s.pulses.length < 42
    rw [hpulses]
    decide
  refine ⟨?_, (incomplete_frame_rejected partialWorld 7 0 hlt).2.1⟩
  rw [hpin, hs]
  show s.data = _
  rw [hdata]
  decide

/-! ## Claims: abort and watchdog -/

/-- C9. Stuck-HIGH abort: at any point of any run where `readData` has taken
`t` samples and not returned, if sample `t` starts a stretch of HIGH (`t = 0`
or sample `t - 1` was LOW) and the pin reads HIGH on the 200 samples
`t .. t + 199`, then `readData` returns `-1` on sample `t + 199`: it has
taken `t + 200` samples in all, and `data` and the stores are those of the
point `t`. -/
theorem stuck_high_abort (pin : Nat → Bool) (d0 : List Nat) (t : Nat) (s : RState)
    (hrun : run pin t (RState.init d0) = .cont s)
    (hstart : t = 0 ∨ pin (t - 1) = false)
    (hhigh : ∀ j, j < 200 → pin (t + j) = true) :
    ∃ s', readData pin d0 = .ret s' .stuckHigh ∧ (readData pin d0).result = some (-1) ∧
      s'.samples = t + 200 ∧ s'.stores = s.stores ∧ s'.data = s.data := by
  obtain ⟨hI, hs⟩ := run_cont_inv pin t (inv_init d0) hrun
  have hs' : s.samples = t := by rw [hs]; exact Nat.zero_add t
  -- no HIGH tick is counted at the point `t`
  have h0 : s.signal_length = 0 := by
    rcases hstart with ht | hlow
    · subst ht
      simp only [run] at hrun
      injection hrun with hrun
      rw [← hrun]; rfl
    · cases t with
      | zero =>
        simp only [run] at hrun
        injection hrun with hrun
        rw [← hrun]; rfl
      | succ t =>
        rw [run_add] at hrun
        cases h1 : run pin t (RState.init d0) with
        | ret s1 e => rw [h1] at hrun; cases hrun
        | cont s1 =>
          rw [h1] at hrun
          obtain ⟨hI1, hs1⟩ := run_cont_inv pin t (inv_init d0) h1
          have hs1' : s1.samples = t := by rw [hs1]; exact Nat.zero_add t
          simp only [run] at hrun
          rw [hs1', show pin t = false from hlow] at hrun
          cases h2 : sample s1 false with
          | ret s2 e => rw [h2] at hrun; cases hrun
          | cont s2 =>
            rw [h2] at hrun
            injection hrun with hrun
            rw [← hrun]
            exact sample_low_cont_sl hI1 h2
  have r1 := run_high_seg pin 199 hI (fun j hj => by rw [hs']; exact hhigh j (by omega))
    (by omega)
  obtain ⟨hI1, _⟩ := run_cont_inv pin _ hI r1
  have r2 : run pin 1 { s with samples := s.samples + 199
                               signal_length := s.signal_length + 199 } =
      .ret { s with samples := s.samples + 199 + 1
                    signal_length := s.signal_length + 199 + 1 } .stuckHigh := by
    simp only [run]
    rw [show pin (s.samples + 199) = true by rw [hs']; exact hhigh 199 (by omega),
      sample_high hI1, if_neg (by show ¬ s.signal_length + 199 + 1 < 200; omega)]
    rfl
  have hfin := readData_eq_of_run pin d0 (run_cont_of_add pin hrun (run_cont_of_add pin r1 r2))
  refine ⟨_, hfin, by rw [hfin]; rfl, ?_, rfl, rfl⟩
  show s.samples + 199 + 1 = t + 200
  rw [hs']

/-- Witness of C9: a pin HIGH from the first sample on. -/
theorem stuck_high_abort_witness :
    ∃ s', readData (fun _ => true) zeroFrame = .ret s' .stuckHigh ∧
      (readData (fun _ => true) zeroFrame).result = some (-1) ∧
      s'.samples = 0 + 200 ∧ s'.stores = (RState.init zeroFrame).stores ∧
      s'.data = (RState.init zeroFrame).data :=
  stuck_high_abort (fun _ => true) zeroFrame 0 (RState.init zeroFrame) rfl (Or.inl rfl)
    (fun _ _ => rfl)

/-- C10 (amended). Watchdog bound: whatever the pin, `readData` returns; the
`for` loop has run at most `WATCHDOG_THRESHOLD + 1 = 50001` iterations, and
the samples taken are at most `85 * 50000 + 200`, hence at most 200 for each
of the 50001 iterations. -/
theorem watchdog_bound (pin : Nat → Bool) (d0 : List Nat) :
    (readData pin d0).result = some (-1) ∧
    (readData pin d0).state.watchdog ≤ WATCHDOG_THRESHOLD + 1 ∧
    (readData pin d0).state.samples ≤ 85 * WATCHDOG_THRESHOLD + 200 ∧
    (readData pin d0).state.samples ≤ 200 * (WATCHDOG_THRESHOLD + 1) := by
  obtain ⟨s, e, h, hF⟩ := readData_returns pin d0
  rw [h]
  refine ⟨by cases e <;> rfl, hF.wdle, hF.smp, ?_⟩
  have := hF.smp
  show s.samples ≤ _
  omega

/-- Counterexample to C10 as stated: on a pin that stays LOW `readData` takes
50001 samples, one more than `WATCHDOG_THRESHOLD`. -/
theorem watchdog_bound_low :
    (readData (fun _ => false) zeroFrame).state.samples = 50001 ∧
    ¬ (readData (fun _ => false) zeroFrame).state.samples ≤ WATCHDOG_THRESHOLD := by
  obtain ⟨s, hr, _, _, _, hs, _⟩ := readData_low (fun _ => false) zeroFrame (fun _ _ => rfl)
  rw [hr]
  show s.samples = 50001 ∧ ¬ s.samples ≤ WATCHDOG_THRESHOLD
  rw [hs]
  exact ⟨by decide, by decide⟩

/-! ## Claims: the retry loop -/

/-- Events of an attempt that fails: the handshake cycle, then the pause. -/
theorem retryLoop_all_reject (w : World) (signal : Nat) (n i : Nat) (tr : List Event)
    (h : ∀ j, j < n → accepted (attemptData w signal (i + j) zeroFrame) = false) :
    retryLoop w signal n i zeroFrame tr =
      (false, zeroFrame,
        tr ++ (List.replicate n (handshakeCycle signal ++ [.delay 2000])).flatten) := by
  induction n generalizing i tr with
  | zero => simp [retryLoop]
  | succ n ih =>
    have h0 := h 0 (by omega)
    rw [Nat.add_zero] at h0
    rw [retryLoop_reject w signal n i zeroFrame tr h0,
      resetData_eq _ (attemptData_length w signal i zeroFrame),
      ih (i + 1) _ (fun j hj => by
        have := h (j + 1) (by omega)
        rw [show i + 1 + j = i + (j + 1) by omega]; exact this)]
    simp [List.replicate_succ, List.append_assoc]

theorem retryLoop_first_accept (w : World) (signal : Nat) (k n i : Nat) (tr : List Event)
    (hk : k < n)
    (hrej : ∀ j, j < k → accepted (attemptData w signal (i + j) zeroFrame) = false)
    (hacc : accepted (attemptData w signal (i + k) zeroFrame) = true) :
    retryLoop w signal n i zeroFrame tr =
      (true, attemptData w signal (i + k) zeroFrame,
        tr ++ (List.replicate k (handshakeCycle signal ++ [.delay 2000])).flatten ++
          handshakeCycle signal ++
          [.toJson (celsius (attemptData w signal (i + k) zeroFrame))
            (humidity (attemptData w signal (i + k) zeroFrame)) NO_ERROR]) := by
  induction k generalizing n i tr with
  | zero =>
    obtain ⟨m, rfl⟩ : ∃ m, n = m + 1 := ⟨n - 1, by omega⟩
    rw [Nat.add_zero] at hacc ⊢
    rw [retryLoop_accept w signal m i zeroFrame tr hacc]
    simp
  | succ k ih =>
    obtain ⟨m, rfl⟩ : ∃ m, n = m + 1 := ⟨n - 1, by omega⟩
    have h0 := hrej 0 (by omega)
    rw [Nat.add_zero] at h0
    rw [retryLoop_reject w signal m i zeroFrame tr h0,
      resetData_eq _ (attemptData_length w signal i zeroFrame),
      ih m (i + 1) _ (by omega) (fun j hj => by
        have := hrej (j + 1) (by omega)
        rw [show i + 1 + j = i + (j + 1) by omega]; exact this)
        (by rw [show i + 1 + k = i + (k + 1) by omega]; exact hacc)]
    rw [show i + 1 + k = i + (k + 1) by omega]
    simp [List.replicate_succ, List.append_assoc]

/-- C7. Retry exhaustion: with one argument, GPIO initialised, and the frame
of each of the `MAX_RETRIES = 3` attempts rejected, `main` returns 0 and its
events are, three times over, the handshake cycle (pin to OUTPUT, write LOW,
delay of 20 ms, pin to INPUT, `readData`) followed by a pause of 2000 ms (so
there is one between consecutive cycles, and one after the last), and then
one record, the only one: `NO_DATA` with 0.0 and 0.0. -/
theorem retry_exhaustion (argv : List String) (w : World) (hargc : argv.length = 2)
    (hinit : w.wiringPiSetupPhys ≠ -1)
    (hrej : ∀ i, i < MAX_RETRIES →
      accepted (attemptData w (signalOf argv w) i zeroFrame) = false) :
    main argv w =
      (0, [.pinMode (signalOf argv w) true, .digitalWrite (signalOf argv w) false,
           .delay 20, .pinMode (signalOf argv w) false, .readData (signalOf argv w),
           .delay 2000,
           .pinMode (signalOf argv w) true, .digitalWrite (signalOf argv w) false,
           .delay 20, .pinMode (signalOf argv w) false, .readData (signalOf argv w),
           .delay 2000,
           .pinMode (signalOf argv w) true, .digitalWrite (signalOf argv w) false,
           .delay 20, .pinMode (signalOf argv w) false, .readData (signalOf argv w),
           .delay 2000,
           .toJson 0 0 "NO_DATA"]) ∧
    MAX_RETRIES = 3 ∧
    (main argv w).2.countP Event.isRead = 3 ∧
    (main argv w).2.countP Event.isPause = 3 ∧
    (main argv w).2.filter Event.isRecord = [.toJson 0 0 "NO_DATA"] := by
  have hloop := retryLoop_all_reject w (signalOf argv w) MAX_RETRIES 0 []
    (fun j hj => by rw [Nat.zero_add]; exact hrej j hj)
  have hmain : main argv w =
      (0, [.pinMode (signalOf argv w) true, .digitalWrite (signalOf argv w) false,
           .delay 20, .pinMode (signalOf argv w) false, .readData (signalOf argv w),
           .delay 2000,
           .pinMode (signalOf argv w) true, .digitalWrite (signalOf argv w) false,
           .delay 20, .pinMode (signalOf argv w) false, .readData (signalOf argv w),
           .delay 2000,
           .pinMode (signalOf argv w) true, .digitalWrite (signalOf argv w) false,
           .delay 20, .pinMode (signalOf argv w) false, .readData (signalOf argv w),
           .delay 2000,
           .toJson 0 0 "NO_DATA"]) := by
    unfold main
    rw [if_neg (by rw [hargc]; decide), if_neg hinit]
    simp only [hloop]
    simp [MAX_RETRIES, NO_DATA, handshakeCycle, List.replicate_succ]
  refine ⟨hmain, rfl, ?_, ?_, ?_⟩
  · rw [hmain]; simp [Event.isRead, List.countP_cons]
  · rw [hmain]; simp [Event.isPause, List.countP_cons]
  · rw [hmain]; simp [Event.isRecord, List.filter_cons]

/-- Witness of C7: the pin is stuck HIGH in every attempt. -/
theorem retry_exhaustion_witness :
    main ["dht22", "7"] stuckWorld =
      (0, [.pinMode 7 true, .digitalWrite 7 false, .delay 20, .pinMode 7 false,
           .readData 7, .delay 2000,
           .pinMode 7 true, .digitalWrite 7 false, .delay 20, .pinMode 7 false,
           .readData 7, .delay 2000,
           .pinMode 7 true, .digitalWrite 7 false, .delay 20, .pinMode 7 false,
           .readData 7, .delay 2000,
           .toJson 0 0 "NO_DATA"]) :=
  (retry_exhaustion ["dht22", "7"] stuckWorld rfl (by decide) (fun i _ => by
    show accepted (readData (fun _ => true) zeroFrame).state.data = false
    decide)).1

/-- Frame left by the pulses sending `0x01, 0x90, 0x80, 0x15, 0x26`. -/
theorem framePulses_data :
    (readData (pinOf (streamOf framePulses 1)) zeroFrame).state.data =
      [0x01, 0x90, 0x80, 0x15, 0x26] := by
  obtain ⟨s, hs, _, _, hdata, _⟩ := readData_of_pulses zeroFrame
    (pinOf (streamOf framePulses 1)) framePulses 1 (by decide) (by decide) (by decide)
    (by decide) (reads_of_pinOf _ _ (fun _ _ => rfl))
  rw [hs]
  show s.data = _
  rw [hdata]
  decide

/-- C8. Early termination: with one argument and GPIO initialised, when
attempt number `k` (`1 ≤ k ≤ 3`) is the first whose frame is accepted, `main`
returns 0 after `k - 1` failed cycles, each followed by its pause of 2000 ms,
and the `k`-th handshake cycle, followed by one record and nothing else: the
reading of that frame with the empty error. So there are exactly `k` calls of
`readData`, `k - 1` pauses, one record, and no `NO_DATA` record. A handshake
cycle is: pin to OUTPUT, write LOW, delay of 20 ms, pin to INPUT, `readData`. -/
theorem early_termination (argv : List String) (w : World) (k : Nat)
    (hargc : argv.length = 2) (hinit : w.wiringPiSetupPhys ≠ -1)
    (hk1 : 1 ≤ k) (hk3 : k ≤ MAX_RETRIES)
    (hrej : ∀ i, i + 1 < k →
      accepted (attemptData w (signalOf argv w) i zeroFrame) = false)
    (hacc : accepted (attemptData w (signalOf argv w) (k - 1) zeroFrame) = true) :
    main argv w =
      (0, (List.replicate (k - 1)
            (handshakeCycle (signalOf argv w) ++ [.delay 2000])).flatten ++
          handshakeCycle (signalOf argv w) ++
          [.toJson (celsius (attemptData w (signalOf argv w) (k - 1) zeroFrame))
            (humidity (attemptData w (signalOf argv w) (k - 1) zeroFrame)) NO_ERROR]) ∧
    (main argv w).2.countP Event.isRead = k ∧
    (main argv w).2.countP Event.isPause = k - 1 ∧
    (main argv w).2.filter Event.isRecord =
      [.toJson (celsius (attemptData w (signalOf argv w) (k - 1) zeroFrame))
        (humidity (attemptData w (signalOf argv w) (k - 1) zeroFrame)) NO_ERROR] ∧
    (main argv w).2.getLast? =
      some (.toJson (celsius (attemptData w (signalOf argv w) (k - 1) zeroFrame))
        (humidity (attemptData w (signalOf argv w) (k - 1) zeroFrame)) NO_ERROR) ∧
    handshakeCycle (signalOf argv w) =
      [.pinMode (signalOf argv w) true, .digitalWrite (signalOf argv w) false, .delay 20,
       .pinMode (signalOf argv w) false, .readData (signalOf argv w)] := by
  have hloop := retryLoop_first_accept w (signalOf argv w) (k - 1) MAX_RETRIES 0 []
    (by omega) (fun j hj => by rw [Nat.zero_add]; exact hrej j (by omega))
    (by rw [Nat.zero_add]; exact hacc)
  rw [Nat.zero_add] at hloop
  have hmain : main argv w =
      (0, (List.replicate (k - 1)
            (handshakeCycle (signalOf argv w) ++ [.delay 2000])).flatten ++
          handshakeCycle (signalOf argv w) ++
          [.toJson (celsius (attemptData w (signalOf argv w) (k - 1) zeroFrame))
            (humidity (attemptData w (signalOf argv w) (k - 1) zeroFrame)) NO_ERROR]) := by
    unfold main
    rw [if_neg (by rw [hargc]; decide), if_neg hinit]
    simp only [hloop]
    simp
  refine ⟨hmain, ?_, ?_, ?_, ?_, rfl⟩
  · rw [hmain]
    have : k = 1 ∨ k = 2 ∨ k = 3 := by unfold MAX_RETRIES at hk3; omega
    rcases this with rfl | rfl | rfl <;>
      simp [handshakeCycle, Event.isRead, List.countP_cons, List.replicate_succ]
  · rw [hmain]
    have : k = 1 ∨ k = 2 ∨ k = 3 := by unfold MAX_RETRIES at hk3; omega
    rcases this with rfl | rfl | rfl <;>
      simp [handshakeCycle, Event.isPause, List.countP_cons, List.replicate_succ]
  · rw [hmain]
    have : k = 1 ∨ k = 2 ∨ k = 3 := by unfold MAX_RETRIES at hk3; omega
    rcases this with rfl | rfl | rfl <;>
      simp [handshakeCycle, Event.isRecord, List.filter_cons, List.replicate_succ]
  · rw [hmain]
    simp

/-- Witness of C8: the first attempt finds the pin stuck HIGH, the second
reads the frame `0x01, 0x90, 0x80, 0x15, 0x26`: two cycles, one pause, and
the record of 40.0 % and -2.1 °C. -/
theorem early_termination_witness :
    main ["dht22", "7"] retryWorld =
      (0, handshakeCycle 7 ++ [.delay 2000] ++ handshakeCycle 7 ++
          [.toJson (-(21 / 10)) 40 NO_ERROR]) := by
  have h1 : attemptData retryWorld 7 1 zeroFrame = [0x01, 0x90, 0x80, 0x15, 0x26] :=
    framePulses_data
  have h := (early_termination ["dht22", "7"] retryWorld 2 rfl (by decide) (by decide)
    (by decide)
    (fun i hi => by
      have hi0 : i = 0 := by omega
      subst hi0
      show accepted (readData (fun _ => true) zeroFrame).state.data = false
      decide)
    (by
      show accepted (attemptData retryWorld 7 1 zeroFrame) = true
      rw [h1]; decide)).1
  rw [h]
  have e : signalOf ["dht22", "7"] retryWorld = 7 := rfl
  rw [e, show 2 - 1 = 1 from rfl, h1]
  have hc : celsius [0x01, 0x90, 0x80, 0x15, 0x26] = -(21 / 10) := by
    unfold celsius; norm_num
  have hh : humidity [0x01, 0x90, 0x80, 0x15, 0x26] = 40 := by
    unfold humidity; norm_num
  rw [hc, hh]
  simp [List.replicate_succ]

/-! ## Claims: the frame across attempts -/

/-- Every attempt of the retry loop entered with the all-zero frame starts
with the all-zero frame. -/
theorem retryFrames_zero (w : World) (signal : Nat) (n i : Nat) :
    ∀ f ∈ retryFrames w signal n i zeroFrame, f = zeroFrame := by
  induction n generalizing i with
  | zero => intro f hf; cases hf
  | succ n ih =>
    intro f hf
    simp only [retryFrames] at hf
    rcases List.mem_cons.mp hf with h | h
    · exact h
    · by_cases hacc : accepted (attemptData w signal i zeroFrame) = true
      · rw [if_pos hacc] at h; cases h
      · rw [if_neg hacc, resetData_eq _ (attemptData_length w signal i zeroFrame)] at h
        exact ih (i + 1) f h

/-- The retry loop calls `readData` once for each frame of `retryFrames`. -/
theorem retryFrames_length (w : World) (signal : Nat) (n i : Nat) (data : List Nat)
    (tr : List Event) :
    (retryLoop w signal n i data tr).2.2.countP Event.isRead =
      tr.countP Event.isRead + (retryFrames w signal n i data).length := by
  induction n generalizing i data tr with
  | zero => simp [retryLoop, retryFrames]
  | succ n ih =>
    simp only [retryLoop, retryFrames]
    by_cases hacc : accepted (attemptData w signal i data) = true
    · simp [hacc, handshakeCycle, Event.isRead, List.countP_cons, List.countP_append]
    · simp only [hacc, if_false, Bool.false_eq_true]
      rw [ih]
      simp [handshakeCycle, Event.isRead, List.countP_cons, List.countP_append]
      omega

/-- C12. Frame reset invariant: `data` is initialised all-zero (line 14), the
reset of lines 187-190 leaves the five cells all-zero, and so the frame held
by `data` at the start of every attempt of `main`'s retry loop is all-zero
(there is one such frame for each `readData` call); a rejected attempt hands
the all-zero frame to the next one, whose validation therefore reads none of
its bytes. -/
theorem frame_reset (w : World) (signal : Nat) :
    zeroFrame = [0, 0, 0, 0, 0] ∧
    (∀ i data, data.length = 5 → resetData (attemptData w signal i data) = zeroFrame) ∧
    (∀ n i, ∀ f ∈ retryFrames w signal n i zeroFrame, f = zeroFrame) ∧
    (∀ n i tr, (retryLoop w signal n i zeroFrame tr).2.2.countP Event.isRead =
      tr.countP Event.isRead + (retryFrames w signal n i zeroFrame).length) ∧
    (∀ n i tr, accepted (attemptData w signal i zeroFrame) = false →
      retryLoop w signal (n + 1) i zeroFrame tr =
        retryLoop w signal n (i + 1) zeroFrame
          (tr ++ handshakeCycle signal ++ [.delay 2000])) := by
  refine ⟨rfl, ?_, retryFrames_zero w signal, ?_, ?_⟩
  · intro i data h
    exact resetData_eq _ (by rw [attemptData_length]; exact h)
  · intro n i tr
    exact retryFrames_length w signal n i zeroFrame tr
  · intro n i tr h
    rw [retryLoop_reject w signal n i zeroFrame tr h,
      resetData_eq _ (attemptData_length w signal i zeroFrame)]

/-- C15. GPIO initialisation failure: with one argument and
`wiringPiSetupPhys()` returning -1, `main` returns -126 and its only event is
the record with error `GPIO_INIT_FAILED`: no pin mode change, write, delay or
`readData`; every run with one argument where initialisation succeeds returns
0, which is not -126. -/
theorem gpio_init_failure (argv : List String) (w : World) (hargc : argv.length = 2)
    (hfail : w.wiringPiSetupPhys = -1) :
    main argv w = (-126, [.toJson 0 0 GPIO_INIT_FAILED]) ∧
    (main argv w).2.filter Event.isRecord = [.toJson 0 0 GPIO_INIT_FAILED] ∧
    (main argv w).2.filter (fun e => !e.isRecord) = [] ∧
    (∀ (argv1 : List String) (w1 : World), argv1.length = 2 → w1.wiringPiSetupPhys ≠ -1 →
      (main argv1 w1).1 = 0 ∧ (main argv1 w1).1 ≠ (main argv w).1) := by
  have hmain : main argv w = (-126, [.toJson 0 0 GPIO_INIT_FAILED]) := by
    unfold main
    rw [if_neg (by rw [hargc]; decide), if_pos hfail]
  refine ⟨hmain, by rw [hmain]; rfl, by rw [hmain]; rfl, ?_⟩
  intro argv1 w1 h1 h2
  have h0 : (main argv1 w1).1 = 0 := by
    unfold main
    rw [if_neg (by rw [h1]; decide), if_neg h2]
    simp only
    split <;> rfl
  exact ⟨h0, by rw [h0, hmain]; decide⟩

/-- Witness of C15: initialisation fails, one record, status -126. -/
theorem gpio_init_failure_witness :
    main ["dht22", "7"] initFailWorld = (-126, [.toJson 0 0 GPIO_INIT_FAILED]) :=
  (gpio_init_failure ["dht22", "7"] initFailWorld rfl rfl).1

/-! ## Claims: termination and the unused result -/

/-- A LOW sample that does not return ends an iteration of the `for` loop. -/
theorem sample_low_cont_watchdog {d0 : List Nat} {s s' : RState} (hI : Inv d0 s)
    (h : sample s false = .cont s') : s'.watchdog = s.watchdog + 1 := by
  by_cases h85 : s.signal_length < 85
  · by_cases hw : s.watchdog + 1 ≤ WATCHDOG_THRESHOLD
    · obtain ⟨t, ht, _, _, h3⟩ := sample_low_seen hI h85 hw
      rw [ht] at h; injection h with h; subst h; exact h3
    · by_cases h0 : s.signal_length = 0
      · rw [sample_low_idle hI h0, if_neg hw] at h; cases h
      · rw [sample_low_pulse hI (by omega) h85, if_neg hw] at h; cases h
  · rw [sample_low_unclassifiable s (by omega)] at h; cases h

/-- A run still going after `a + b` samples was going after `a`. -/
theorem run_cont_split (pin : Nat → Bool) (a b : Nat) {s s' : RState}
    (h : run pin (a + b) s = .cont s') :
    ∃ s1, run pin a s = .cont s1 ∧ run pin b s1 = .cont s' := by
  rw [run_add] at h
  cases h1 : run pin a s with
  | cont s1 => rw [h1] at h; exact ⟨s1, rfl, h⟩
  | ret s1 e => rw [h1] at h; cases h

/-- From any point of a run, 200 HIGH samples in a row make `readData` return. -/
theorem run_high_returns {d0 : List Nat} (pin : Nat → Bool) {s : RState} (hI : Inv d0 s)
    (hp : ∀ j, j < 200 → pin (s.samples + j) = true) :
    ∃ s' e, run pin 200 s = .ret s' e := by
  have hsl := hI.sl
  have r1 := run_high_seg pin (199 - s.signal_length) hI (fun j hj => hp j (by omega))
    (by omega)
  obtain ⟨hI1, _⟩ := run_cont_inv pin _ hI r1
  have r2 : run pin 1 { s with samples := s.samples + (199 - s.signal_length)
                               signal_length := s.signal_length + (199 - s.signal_length) } =
      .ret { s with samples := s.samples + (199 - s.signal_length) + 1
                    signal_length := s.signal_length + (199 - s.signal_length) + 1 }
        .stuckHigh := by
    simp only [run]
    rw [show pin (s.samples + (199 - s.signal_length)) = true from hp _ (by omega),
      sample_high hI1,
      if_neg (by show ¬ s.signal_length + (199 - s.signal_length) + 1 < 200; omega)]
    rfl
  exact ⟨_, _, run_ret_mono pin (run_cont_of_add pin r1 r2) (by omega)⟩

/-- C16. Termination: whatever the levels of the pin, `readData` returns,
after at most `200 * 50001` samples and at most 50001 iterations of the `for`
loop. While it runs, at most 50000 iterations are complete and fewer than 200
samples are counted in the current one; a HIGH sample stays in the iteration
and counts one more, a LOW sample ends it; and no 200 samples in a row are
taken without one of them reading LOW or `readData` returning. -/
theorem readData_terminates (pin : Nat → Bool) (d0 : List Nat) :
    (∃ s e, readData pin d0 = .ret s e ∧ s.samples ≤ 200 * (WATCHDOG_THRESHOLD + 1) ∧
      s.watchdog ≤ WATCHDOG_THRESHOLD + 1) ∧
    WATCHDOG_THRESHOLD + 1 = 50001 ∧
    (∀ t s, run pin t (RState.init d0) = .cont s →
      s.samples = t ∧ s.watchdog ≤ WATCHDOG_THRESHOLD ∧ s.signal_length < 200) ∧
    (∀ t s s', run pin t (RState.init d0) = .cont s →
      run pin (t + 1) (RState.init d0) = .cont s' →
      (pin t = true → s'.watchdog = s.watchdog ∧ s'.signal_length = s.signal_length + 1) ∧
      (pin t = false → s'.watchdog = s.watchdog + 1 ∧ s'.signal_length = 0)) ∧
    (∀ t s, run pin (t + 200) (RState.init d0) = .cont s →
      ∃ j, j < 200 ∧ pin (t + j) = false) := by
  refine ⟨?_, by decide, ?_, ?_, ?_⟩
  · obtain ⟨s, e, h, hF⟩ := readData_returns pin d0
    have := hF.smp
    exact ⟨s, e, h, by omega, hF.wdle⟩
  · intro t s h
    obtain ⟨hI, hs⟩ := run_cont_inv pin t (inv_init d0) h
    exact ⟨by rw [hs]; exact Nat.zero_add t, hI.wdle, hI.sl⟩
  · intro t s s' h h'
    obtain ⟨hI, hs⟩ := run_cont_inv pin t (inv_init d0) h
    have hs0 : s.samples = t := by rw [hs]; exact Nat.zero_add t
    have hstep : sample s (pin t) = .cont s' := by
      obtain ⟨s1, e1, e2⟩ := run_cont_split pin t 1 h'
      rw [h] at e1; injection e1 with e1; subst e1
      simp only [run] at e2
      rw [hs0] at e2
      cases hc : sample s (pin t) with
      | cont s2 => rw [hc] at e2; exact congrArg Step.cont (Step.cont.inj e2)
      | ret s2 e => rw [hc] at e2; cases e2
    constructor
    · intro hp
      rw [hp, sample_high hI] at hstep
      by_cases hc : s.signal_length + 1 < 200
      · rw [if_pos hc] at hstep
        injection hstep with hstep
        subst hstep
        exact ⟨rfl, rfl⟩
      · rw [if_neg hc] at hstep; cases hstep
    · intro hp
      rw [hp] at hstep
      exact ⟨sample_low_cont_watchdog hI hstep, sample_low_cont_sl hI hstep⟩
  · intro t s h
    by_contra hno
    have hall : ∀ j, j < 200 → pin (t + j) = true := by
      intro j hj
      cases hb : pin (t + j) with
      | true => rfl
      | false => exact absurd ⟨j, hj, hb⟩ hno
    obtain ⟨s1, e1, e2⟩ := run_cont_split pin t 200 h
    obtain ⟨hI, hs⟩ := run_cont_inv pin t (inv_init d0) e1
    have hs0 : s1.samples = t := by rw [hs]; exact Nat.zero_add t
    obtain ⟨s2, e, hr⟩ := run_high_returns pin hI (fun j hj => by rw [hs0]; exact hall j hj)
    rw [hr] at e2
    cases e2

/-- C17. The result of `readData` carries no information: whatever the pin,
`readData` returns `-1`; an iteration of the retry loop reads the call only
through the frame it leaves, accepting and reporting, or rejecting, by that
frame alone; so two attempts (other pin, other way of returning) that leave
the same frame give the same valid flag, frame and events. -/
theorem result_unused :
    (∀ (pin : Nat → Bool) (d0 : List Nat), (readData pin d0).result = some (-1)) ∧
    (∀ (w : World) (signal n i : Nat) (data : List Nat) (tr : List Event),
      retryLoop w signal (n + 1) i data tr =
        if accepted (attemptData w signal i data) then
          (true, attemptData w signal i data,
            tr ++ handshakeCycle signal ++
              [.toJson (celsius (attemptData w signal i data))
                (humidity (attemptData w signal i data)) NO_ERROR])
        else
          retryLoop w signal n (i + 1) (resetData (attemptData w signal i data))
            (tr ++ handshakeCycle signal ++ [.delay 2000])) ∧
    (∀ (w w1 : World) (signal i i1 : Nat) (data data1 : List Nat) (tr : List Event),
      attemptData w signal i data = attemptData w1 signal i1 data1 →
      retryLoop w signal 1 i data tr = retryLoop w1 signal 1 i1 data1 tr) := by
  refine ⟨?_, ?_, ?_⟩
  · intro pin d0
    obtain ⟨s, e, h, _⟩ := readData_returns pin d0
    rw [h]
    cases e <;> rfl
  · intro w signal n i data tr
    simp only [retryLoop]
  · intro w w1 signal i i1 data data1 tr h
    simp only [retryLoop, h]

/-- Witness of C17: a pin stuck HIGH makes `readData` return on line 42, a
first pulse of 100 ticks on line 78; both leave the all-zero frame, and the
attempt gives the same in both. -/
theorem result_unused_witness :
    (readData (stuckWorld.digitalRead 0 7) zeroFrame).exit = some .stuckHigh ∧
    (readData (longFirstWorld.digitalRead 0 7) zeroFrame).exit = some .unclassifiable ∧
    retryLoop stuckWorld 7 1 0 zeroFrame [] = retryLoop longFirstWorld 7 1 0 zeroFrame [] :=
  ⟨by decide, by decide,
    result_unused.2.2 stuckWorld longFirstWorld 7 0 0 zeroFrame zeroFrame [] (by decide)⟩

/-! ## Claims: where and what `readData` stores -/

theorem storesOf_length (ps : List Nat) : (storesOf ps).length = (ps.length - 2) / 8 := by
  unfold storesOf
  rw [List.length_map, List.length_range]

theorem storesOf_getD (ps : List Nat) (k : Nat) (hk : k < (ps.length - 2) / 8) :
    (storesOf ps).getD k (0, 0) = ((k : Int), byteOf ((ps.drop (8 * k + 2)).take 8)) := by
  unfold storesOf
  rw [List.getD_eq_getElem _ _ (by rw [List.length_map, List.length_range]; exact hk)]
  simp

/-- C18. Byte placement: at every point of every run, `readData` returned or
not, the stores made so far are as many as the `k ≥ 1` with `8 k + 2` at most
the number of classified pulses (a byte is stored exactly when that number
reaches `8 k + 2`); store number `k` from 0 (the `k + 1`-th) is made at index
`k` and holds the eight bits, most significant first, of the pulses of list
index `8 k + 2 .. 8 k + 9` (pulses `8 (k + 1) - 5 .. 8 (k + 1) + 2` numbered
from 1); its index is within `0..4` exactly when `k < 5`. Between two samples
the number of classified pulses is `loop_counter`. -/
theorem byte_placement (pin : Nat → Bool) (d0 : List Nat) (t : Nat) :
    (run pin t (RState.init d0)).state.stores.length =
      ((run pin t (RState.init d0)).state.pulses.length - 2) / 8 ∧
    (∀ k, 1 ≤ k →
      (k ≤ (run pin t (RState.init d0)).state.stores.length ↔
        8 * k + 2 ≤ (run pin t (RState.init d0)).state.pulses.length)) ∧
    (∀ k, k < (run pin t (RState.init d0)).state.stores.length →
      (run pin t (RState.init d0)).state.stores.getD k (0, 0) =
        ((k : Int), ∑ j in Finset.range 8,
          bitOf ((run pin t (RState.init d0)).state.pulses.getD (j + (8 * k + 2)) 0) *
            2 ^ (7 - j)) ∧
      ((0 ≤ ((run pin t (RState.init d0)).state.stores.getD k (0, 0)).1 ∧
        ((run pin t (RState.init d0)).state.stores.getD k (0, 0)).1 < 5) ↔ k < 5)) ∧
    (∀ s, run pin t (RState.init d0) = .cont s → s.loop_counter = s.pulses.length) := by
  have hst := (@run_stores d0 pin t).1
  have hlen : (run pin t (RState.init d0)).state.stores.length =
      ((run pin t (RState.init d0)).state.pulses.length - 2) / 8 := by
    rw [hst, storesOf_length]
  refine ⟨hlen, ?_, ?_, ?_⟩
  · intro k hk
    rw [hlen]
    omega
  · intro k hk
    rw [hlen] at hk
    have hget : (run pin t (RState.init d0)).state.stores.getD k (0, 0) =
        ((k : Int), ∑ j in Finset.range 8,
          bitOf ((run pin t (RState.init d0)).state.pulses.getD (j + (8 * k + 2)) 0) *
            2 ^ (7 - j)) := by
      rw [hst, storesOf_getD _ k hk, byteOf_window _ _ (by omega)]
    rw [hget]
    exact ⟨rfl, by
      show (0 ≤ (k : Int) ∧ (k : Int) < 5) ↔ k < 5
      omega⟩
  · intro s h
    exact (run_cont_inv pin t (inv_init d0) h).1.lc

/-- Witness of C18: on the pulses sending `0x01, 0x90, ...`, after 120 samples
a first store is made, at index 0, of the bits of pulses 3 to 10. -/
theorem byte_placement_witness :
    (run (pinOf (streamOf framePulses 1)) 120 (RState.init zeroFrame)).state.stores.getD 0
        (0, 0) =
      ((0 : Int), ∑ j in Finset.range 8,
        bitOf ((run (pinOf (streamOf framePulses 1)) 120
          (RState.init zeroFrame)).state.pulses.getD (j + (8 * 0 + 2)) 0) * 2 ^ (7 - j)) :=
  ((byte_placement (pinOf (streamOf framePulses 1)) zeroFrame 120).2.2.1 0 (by decide)).1

theorem writeData_getD_le (d : List Nat) (idx : Int) (v B : Nat)
    (hd : ∀ i, d.getD i 0 ≤ B) (hv : v ≤ B) : ∀ i, (writeData d idx v).getD i 0 ≤ B := by
  intro i
  unfold writeData
  split
  · simp only [List.getD_eq_getElem?_getD, List.getElem?_set]
    have := hd i
    simp only [List.getD_eq_getElem?_getD] at this
    split
    · split
      · exact hv
      · simp
    · exact this
  · exact hd i

theorem applyStores_getD_le (d : List Nat) (st : List (Int × Nat)) (B : Nat)
    (hd : ∀ i, d.getD i 0 ≤ B) (hst : ∀ p ∈ st, p.2 ≤ B) :
    ∀ i, (applyStores d st).getD i 0 ≤ B := by
  induction st generalizing d with
  | nil => exact hd
  | cons p st ih =>
    show ∀ i, (applyStores (writeData d p.1 p.2) st).getD i 0 ≤ B
    exact ih _ (writeData_getD_le d p.1 p.2 B hd (hst p (List.mem_cons_self _ _)))
      (fun q hq => hst q (List.mem_cons_of_mem _ hq))

theorem storesOf_le (ps : List Nat) : ∀ p ∈ storesOf ps, p.2 ≤ 255 := by
  intro p hp
  obtain ⟨k, _, _, h2⟩ := mem_storesOf hp
  rw [h2]
  have h := byteOf_lt ((ps.drop (8 * k + 2)).take 8)
  have hl : ((ps.drop (8 * k + 2)).take 8).length ≤ 8 := by
    rw [List.length_take]; omega
  have : 2 ^ ((ps.drop (8 * k + 2)).take 8).length ≤ 2 ^ 8 :=
    Nat.pow_le_pow_right (by decide) hl
  omega

/-- C19. Byte range invariant: at every point of every run entered with the
all-zero frame, `readData` returned or not, every value stored is in
`0..255`, every cell of `data` is in `0..255`, so
`data[0] + data[1] + data[2] + data[3] ≤ 1020` and
`data[0] * 256 + data[1] ≤ 65535`; between two samples `val` holds
`val_counter` bits and `val_counter ≤ 7`, so at most eight bits are in `val`
when it is stored. The frame every attempt of the retry loop validates is
such a frame. -/
theorem byte_range (pin : Nat → Bool) (t : Nat) :
    (∀ p ∈ (run pin t (RState.init zeroFrame)).state.stores, p.2 ≤ 255) ∧
    (∀ i, (run pin t (RState.init zeroFrame)).state.data.getD i 0 ≤ 255) ∧
    (run pin t (RState.init zeroFrame)).state.data.getD 0 0 +
      (run pin t (RState.init zeroFrame)).state.data.getD 1 0 +
      (run pin t (RState.init zeroFrame)).state.data.getD 2 0 +
      (run pin t (RState.init zeroFrame)).state.data.getD 3 0 ≤ 1020 ∧
    (run pin t (RState.init zeroFrame)).state.data.getD 0 0 * 256 +
      (run pin t (RState.init zeroFrame)).state.data.getD 1 0 ≤ 65535 ∧
    (∀ s, run pin t (RState.init zeroFrame) = .cont s →
      s.val < 2 ^ s.val_counter ∧ s.val_counter ≤ 7 ∧ s.val < 128) ∧
    (∀ (w : World) (signal i : Nat) (j : Nat),
      (attemptData w signal i zeroFrame).getD j 0 ≤ 255) := by
  have key : ∀ (q : Nat → Bool) (n : Nat) (i : Nat),
      (run q n (RState.init zeroFrame)).state.data.getD i 0 ≤ 255 := by
    intro q n
    rw [(@run_stores zeroFrame q n).2]
    exact applyStores_getD_le zeroFrame _ 255
      (fun i => by
        have : zeroFrame.getD i 0 = 0 := by
          unfold zeroFrame
          match i with
          | 0 | 1 | 2 | 3 | 4 => rfl
          | _ + 5 => rfl
        omega)
      (storesOf_le _)
  have h0 := key pin t 0
  have h1 := key pin t 1
  have h2 := key pin t 2
  have h3 := key pin t 3
  refine ⟨?_, key pin t, by omega, by omega, ?_, ?_⟩
  · rw [(@run_stores zeroFrame pin t).1]
    exact storesOf_le _
  · intro s h
    have hI := (run_cont_inv pin t (inv_init zeroFrame) h).1
    have hvc := vcOf_lt s.pulses.length
    rw [← hI.vc] at hvc
    exact ⟨inv_val_lt hI, by omega, inv_val_lt_128 hI⟩
  · intro w signal i j
    exact key (w.digitalRead i signal) FUEL j

/-! ## Claims: an unclassifiable pulse, the frame bounds, the pin argument -/

theorem attemptData_def (w : World) (signal i : Nat) (data : List Nat) :
    attemptData w signal i data = (readData (w.digitalRead i signal) data).state.data := rfl

/-- A stream of classifiable pulses read within the watchdog budget: after
its last LOW sample `readData` is running, has classified exactly these
pulses, and no pulse is in progress. -/
theorem run_stream (d0 : List Nat) (pin : Nat → Bool) (ps : List (Nat × Nat))
    (tail : Nat) (rest : List Bool) (hgap : ∀ p ∈ ps.tail, 1 ≤ p.1)
    (hdur : ∀ p ∈ ps, 1 ≤ p.2 ∧ p.2 ≤ 84)
    (htail : 1 ≤ tail) (hw : (ps.map Prod.fst).sum + tail ≤ WATCHDOG_THRESHOLD)
    (hp : Reads pin 0 (streamOf ps tail ++ rest)) :
    ∃ s, run pin (streamOf ps tail).length (RState.init d0) = .cont s ∧ Inv d0 s ∧
      s.signal_length = 0 ∧ s.pulses = ps.map Prod.snd ∧ Reads pin s.samples rest := by
  have hp0 := hp
  unfold streamOf at hp ⊢
  rw [List.append_assoc] at hp
  have hI0 := inv_init d0
  obtain ⟨s1, r1, a1, a2, a3⟩ := run_pulses pin ps hI0 (by show 0 < 85; omega) (Or.inl rfl)
    hgap hdur (reads_append_left hp) (by show 0 + _ ≤ _; omega)
  obtain ⟨hI1, hs1⟩ := run_cont_inv pin _ hI0 r1
  have hs1' : s1.samples = 0 + (pulseSamples ps).length := hs1
  have hp2 := reads_append_right hp
  rw [← hs1'] at hp2
  obtain ⟨s2, r2, b1, b2, b3⟩ := run_gap pin tail hI1 a1 (fun _ => htail)
    (reads_replicate (reads_append_left hp2)) (by rw [a3]; show 0 + _ + _ ≤ _; omega)
  obtain ⟨hI2, hs2⟩ := run_cont_inv pin _ hI1 r2
  have hp3 := reads_append_right hp2
  rw [List.length_replicate, ← hs2] at hp3
  have hseen : seen (RState.init d0) = [] := rfl
  rw [hseen, List.nil_append] at a2
  refine ⟨s2, ?_, hI2, b1, by rw [b2, a2], hp3⟩
  rw [List.length_append, List.length_replicate]
  exact run_cont_of_add pin r1 r2

/-- A stream of classifiable pulses read within the watchdog budget, then a
pulse of 85 ticks or more: `readData` returns on the LOW sample that ends it,
with the frame the earlier pulses left. -/
theorem readData_of_pulses_long (d0 : List Nat) (pin : Nat → Bool) (ps : List (Nat × Nat))
    (tail d : Nat) (hgap : ∀ p ∈ ps.tail, 1 ≤ p.1) (hdur : ∀ p ∈ ps, 1 ≤ p.2 ∧ p.2 ≤ 84)
    (htail : 1 ≤ tail) (hw : (ps.map Prod.fst).sum + tail ≤ WATCHDOG_THRESHOLD)
    (hd : 85 ≤ d ∧ d < 200)
    (hp : Reads pin 0 (streamOf ps tail ++ (List.replicate d true ++ [false]))) :
    ∃ s, readData pin d0 = .ret s .unclassifiable ∧ s.signal_length = d ∧
      s.pulses = ps.map Prod.snd ∧
      s.data = applyStores d0 (storesOf (ps.map Prod.snd)) := by
  obtain ⟨s2, r2, hI2, b1, b2, hp3⟩ := run_stream d0 pin ps tail _ hgap hdur htail hw hp
  have hhigh := reads_replicate (reads_append_left hp3)
  have hlow := reads_append_right hp3
  rw [List.length_replicate] at hlow
  have r3 := run_high_seg pin d hI2 hhigh (by omega)
  have r4 :
      run pin 1 { s2 with samples := s2.samples + d, signal_length := s2.signal_length + d } =
      .ret { ({ s2 with samples := s2.samples + d
                        signal_length := s2.signal_length + d } : RState).tick with
             loop_counter := u16 (s2.loop_counter + 1) } .unclassifiable := by
    simp only [run]
    rw [show pin (s2.samples + d) = false by
      have := hlow 0 (by simp)
      rw [Nat.add_zero] at this
      rw [this]; rfl]
    rw [sample_low_unclassifiable _ (by show 85 ≤ s2.signal_length + d; omega)]
  have hrun := run_cont_of_add pin r2 (run_cont_of_add pin r3 r4)
  refine ⟨_, readData_eq_of_run pin d0 hrun, ?_, b2, ?_⟩
  · show s2.signal_length + d = d; omega
  · show s2.data = _; rw [hI2.dat, hI2.st, b2]

theorem main_first_accept (argv : List String) (w : World) (k : Nat)
    (hargc : argv.length = 2) (hinit : w.wiringPiSetupPhys ≠ -1) (hk : k < MAX_RETRIES)
    (hrej : ∀ j, j < k → accepted (attemptData w (signalOf argv w) j zeroFrame) = false)
    (hacc : accepted (attemptData w (signalOf argv w) k zeroFrame) = true) :
    main argv w =
      (0, (List.replicate k (handshakeCycle (signalOf argv w) ++ [.delay 2000])).flatten ++
          handshakeCycle (signalOf argv w) ++
          [.toJson (celsius (attemptData w (signalOf argv w) k zeroFrame))
            (humidity (attemptData w (signalOf argv w) k zeroFrame)) NO_ERROR]) := by
  have hloop := retryLoop_first_accept w (signalOf argv w) k MAX_RETRIES 0 [] hk
    (fun j hj => by rw [Nat.zero_add]; exact hrej j hj) (by rw [Nat.zero_add]; exact hacc)
  rw [Nat.zero_add] at hloop
  unfold main
  rw [if_neg (by rw [hargc]; decide), if_neg hinit]
  simp only [hloop]
  simp

theorem main_all_reject (argv : List String) (w : World)
    (hargc : argv.length = 2) (hinit : w.wiringPiSetupPhys ≠ -1)
    (hrej : ∀ j, j < MAX_RETRIES →
      accepted (attemptData w (signalOf argv w) j zeroFrame) = false) :
    main argv w =
      (0, (List.replicate MAX_RETRIES
            (handshakeCycle (signalOf argv w) ++ [.delay 2000])).flatten ++
          [.toJson 0 0 NO_DATA]) := by
  have hloop := retryLoop_all_reject w (signalOf argv w) MAX_RETRIES 0 []
    (fun j hj => by rw [Nat.zero_add]; exact hrej j hj)
  unfold main
  rw [if_neg (by rw [hargc]; decide), if_neg hinit]
  simp only [hloop]
  simp

/-- C11 (amended). Unclassifiable pulse: in an attempt entered with the
all-zero frame, when `readData` meets a HIGH pulse of `85 ≤ d` ticks (`d < 200`
holds of every pulse that is ended) before 42 pulses are classified, it
returns `-1` on the sample that ends the pulse, the frame is rejected by the
test of line 158 whatever bytes were stored before, and the retry loop emits
no record for the attempt. -/
theorem unclassifiable_pulse (w : World) (signal i t : Nat) (s : RState)
    (hrun : run (w.digitalRead i signal) t (RState.init zeroFrame) = .cont s)
    (hlow : w.digitalRead i signal t = false)
    (hd : 85 ≤ s.signal_length) (hn : s.pulses.length < 42) :
    s.signal_length < 200 ∧
    (∃ s', readData (w.digitalRead i signal) zeroFrame = .ret s' .unclassifiable ∧
      (readData (w.digitalRead i signal) zeroFrame).result = some (-1) ∧
      s'.samples = t + 1 ∧ s'.data = s.data ∧ s'.stores = s.stores) ∧
    accepted (attemptData w signal i zeroFrame) = false ∧
    ∀ n tr, retryLoop w signal (n + 1) i zeroFrame tr =
      retryLoop w signal n (i + 1) zeroFrame (tr ++ handshakeCycle signal ++ [.delay 2000]) := by
  obtain ⟨hI, hs⟩ := run_cont_inv _ t (inv_init zeroFrame) hrun
  have hs' : s.samples = t := by rw [hs]; exact Nat.zero_add t
  have hstep : run (w.digitalRead i signal) 1 s =
      .ret { s.tick with loop_counter := u16 (s.loop_counter + 1) } .unclassifiable := by
    simp only [run]
    rw [hs', hlow, sample_low_unclassifiable s hd]
  have hfin := readData_eq_of_run _ zeroFrame (run_cont_of_add _ hrun hstep)
  have h4 : (attemptData w signal i zeroFrame).getD 4 0 = 0 := by
    rw [attemptData_def]
    exact data4_of_lt_42 (w.digitalRead i signal) zeroFrame (by rw [hfin]; exact hn)
  have hrej : accepted (attemptData w signal i zeroFrame) = false := by
    cases hacc : accepted (attemptData w signal i zeroFrame) with
    | false => rfl
    | true =>
      obtain ⟨e1, e2⟩ := (accepted_iff _).mp hacc
      rw [h4] at e1
      exact absurd e1 e2
  refine ⟨hI.sl, ⟨_, hfin, by rw [hfin]; rfl, ?_, rfl, rfl⟩, hrej, ?_⟩
  · show s.samples + 1 = t + 1; rw [hs']
  · intro n tr
    rw [retryLoop_reject w signal n i zeroFrame tr hrej,
      resetData_eq _ (attemptData_length w signal i zeroFrame)]

/-- Witness of C11: the first pulse of the attempt lasts 100 ticks. -/
theorem unclassifiable_pulse_witness :
    accepted (attemptData longFirstWorld 7 0 zeroFrame) = false :=
  (unclassifiable_pulse longFirstWorld 7 0 100
    { RState.init zeroFrame with samples := (RState.init zeroFrame).samples + 100
                                 signal_length := (RState.init zeroFrame).signal_length + 100 }
    (run_high_seg (longFirstWorld.digitalRead 0 7) 100 (inv_init zeroFrame)
      (fun j hj => decide_eq_true (by show 0 + j < 100; omega)) (by decide))
    (by decide) (by decide) (by decide)).2.2.1

theorem reads_longPulse :
    Reads (pinOf longPulseStream) 0
      (streamOf framePulses 1 ++ (List.replicate 100 true ++ [false])) :=
  reads_pinOf longPulseStream

/-- Frame left, and way of returning, on `longPulseStream`. -/
theorem longPulse_data :
    (readData (pinOf longPulseStream) zeroFrame).exit = some .unclassifiable ∧
    (readData (pinOf longPulseStream) zeroFrame).state.signal_length = 100 ∧
    (readData (pinOf longPulseStream) zeroFrame).state.data =
      [0x01, 0x90, 0x80, 0x15, 0x26] := by
  obtain ⟨s, hs, h1, _, hdata⟩ := readData_of_pulses_long zeroFrame
    (pinOf longPulseStream) framePulses 1 100 (by decide) (by decide) (by decide)
    (by decide) (by decide) reads_longPulse
  rw [hs]
  refine ⟨rfl, h1, ?_⟩
  show s.data = _
  rw [hdata]
  decide

/-- Counterexample to C11 as stated: the attempt reads a whole valid frame,
then meets a 43rd pulse of 100 ticks; `readData` returns on line 78, and
`main` emits the success record of the frame. -/
theorem unclassifiable_after_frame :
    (readData (longPulseWorld.digitalRead 0 7) zeroFrame).exit = some .unclassifiable ∧
    (readData (longPulseWorld.digitalRead 0 7) zeroFrame).state.signal_length = 100 ∧
    accepted (attemptData longPulseWorld 7 0 zeroFrame) = true ∧
    main ["dht22", "7"] longPulseWorld =
      (0, handshakeCycle 7 ++ [.toJson (-(21 / 10)) 40 NO_ERROR]) := by
  have hpin : longPulseWorld.digitalRead 0 7 = pinOf longPulseStream := rfl
  have hdata : attemptData longPulseWorld 7 0 zeroFrame = [0x01, 0x90, 0x80, 0x15, 0x26] := by
    rw [attemptData_def, hpin]; exact longPulse_data.2.2
  have hacc : accepted (attemptData longPulseWorld 7 0 zeroFrame) = true := by
    rw [hdata]; decide
  have e : signalOf ["dht22", "7"] longPulseWorld = 7 := rfl
  have hmain := main_first_accept ["dht22", "7"] longPulseWorld 0 rfl (by decide) (by decide)
    (fun j hj => absurd hj (Nat.not_lt_zero j)) (by rw [e]; exact hacc)
  rw [e, hdata] at hmain
  have hc : celsius [0x01, 0x90, 0x80, 0x15, 0x26] = -(21 / 10) := by
    unfold celsius; norm_num
  have hh : humidity [0x01, 0x90, 0x80, 0x15, 0x26] = 40 := by
    unfold humidity; norm_num
  rw [hc, hh] at hmain
  refine ⟨by rw [hpin]; exact longPulse_data.1, by rw [hpin]; exact longPulse_data.2.1,
    hacc, ?_⟩
  rw [hmain]
  simp

/-- C13, which the code violates. On fifty pulses of one tick `readData`
makes six stores, and the sixth, on the 50th pulse, is made at index
`50 / 8 - 1 = 5`, outside the five cells of `data`: not every index at which
a byte is stored is in `0..4`. -/
theorem frame_bounds_overrun :
    fiftyPulses.length = 50 ∧
    (readData (pinOf (streamOf fiftyPulses 1)) zeroFrame).state.stores =
      [(0, 0), (1, 0), (2, 0), (3, 0), (4, 0), (5, 0)] ∧
    ((5 : Int), 0) ∈ (readData (pinOf (streamOf fiftyPulses 1)) zeroFrame).state.stores ∧
    ¬ (∀ p ∈ (readData (pinOf (streamOf fiftyPulses 1)) zeroFrame).state.stores,
        0 ≤ p.1 ∧ p.1 < 5) := by
  obtain ⟨s, hs, _, hst, _⟩ := readData_of_pulses zeroFrame
    (pinOf (streamOf fiftyPulses 1)) fiftyPulses 1 (by decide) (by decide) (by decide)
    (by decide) (reads_of_pinOf _ _ (fun _ _ => rfl))
  have hstores : (readData (pinOf (streamOf fiftyPulses 1)) zeroFrame).state.stores =
      [(0, 0), (1, 0), (2, 0), (3, 0), (4, 0), (5, 0)] := by
    rw [hs]
    show s.stores = _
    rw [hst]
    decide
  refine ⟨by decide, hstores, by rw [hstores]; decide, ?_⟩
  rw [hstores]
  decide

theorem retryLoop_events (w : World) (signal : Nat) (n i : Nat) (data : List Nat)
    (tr : List Event) :
    ∀ e ∈ (retryLoop w signal n i data tr).2.2,
      e ∈ tr ∨ e ∈ handshakeCycle signal ∨ e = .delay 2000 ∨
        ∃ c h, e = .toJson c h NO_ERROR := by
  induction n generalizing i data tr with
  | zero => intro e he; exact Or.inl he
  | succ n ih =>
    intro e he
    by_cases hacc : accepted (attemptData w signal i data) = true
    · rw [retryLoop_accept w signal n i data tr hacc] at he
      simp only [List.mem_append, List.mem_singleton] at he
      rcases he with (h | h) | h
      · exact Or.inl h
      · exact Or.inr (Or.inl h)
      · exact Or.inr (Or.inr (Or.inr ⟨_, _, h⟩))
    · rw [retryLoop_reject w signal n i data tr (by simpa using hacc)] at he
      rcases ih _ _ _ e he with h | h | h | h
      · simp only [List.mem_append, List.mem_singleton] at h
        rcases h with (h | h) | h
        · exact Or.inl h
        · exact Or.inr (Or.inl h)
        · exact Or.inr (Or.inr (Or.inl h))
      · exact Or.inr (Or.inl h)
      · exact Or.inr (Or.inr (Or.inl h))
      · exact Or.inr (Or.inr (Or.inr h))

/-- C14, which the code violates. With the argument `abc`, which `sscanf`
does not convert, `main` detects nothing: it runs the three handshake
cycles on the pin number the uninitialised `signal` happens to hold and ends
with `NO_DATA`; and no run of `main`, whatever the arguments and the world,
emits a record with the error `INVALID_GPIO`. -/
theorem invalid_pin_undetected :
    noPinWorld.sscanf_d "abc" = none ∧
    main ["dht22", "abc"] noPinWorld =
      (0, handshakeCycle 0 ++ [.delay 2000] ++ handshakeCycle 0 ++ [.delay 2000] ++
          handshakeCycle 0 ++ [.delay 2000] ++ [.toJson 0 0 NO_DATA]) ∧
    (∀ (argv : List String) (w : World) (c h : ℚ),
      Event.toJson c h INVALID_GPIO ∉ (main argv w).2) := by
  refine ⟨rfl, ?_, ?_⟩
  · have e : signalOf ["dht22", "abc"] noPinWorld = 0 := rfl
    have hmain := main_all_reject ["dht22", "abc"] noPinWorld rfl (by decide)
      (fun j _ => by
        show accepted (readData (fun _ => true) zeroFrame).state.data = false
        decide)
    rw [hmain, e]
    simp [MAX_RETRIES, List.replicate_succ]
  · intro argv w c h hmem
    unfold main at hmem
    by_cases h2 : argv.length = 2
    · rw [if_neg (by rw [h2]; decide)] at hmem
      by_cases hinit : w.wiringPiSetupPhys = -1
      · rw [if_pos hinit] at hmem
        simp [GPIO_INIT_FAILED, INVALID_GPIO] at hmem
      · rw [if_neg hinit] at hmem
        have hev := retryLoop_events w (signalOf argv w) MAX_RETRIES 0 zeroFrame []
        have hcase : Event.toJson c h INVALID_GPIO ∈
            (retryLoop w (signalOf argv w) MAX_RETRIES 0 zeroFrame []).2.2 ∨
            Event.toJson c h INVALID_GPIO = .toJson 0 0 NO_DATA := by
          simp only at hmem
          split at hmem
          · simp only [List.mem_append, List.mem_singleton] at hmem
            exact hmem
          · exact Or.inl hmem
        rcases hcase with hc | hc
        · rcases hev _ hc with h1 | h1 | h1 | ⟨c1, h1, h3⟩
          · cases h1
          · simp [handshakeCycle] at h1
          · cases h1
          · simp [NO_ERROR, INVALID_GPIO] at h3
        · simp [NO_DATA, INVALID_GPIO] at hc
    · rw [if_pos h2] at hmem
      simp at hmem

end DHT22
